import Mathlib

/-!
# Verification of the oobir cache subsystem and strategy/indicator core

This file is a shallow embedding, in Lean 4, of the core logic of the oobir
repository:

* `src/db.py` — the SQLite-backed cache store with market-aware expiration
  (`_is_market_open_now`, `_should_expire_cache`, `get_cached_data`,
  `set_cached_data`, `clear_cache`, `get_cache_stats`, `clear_symbol_cache`,
  `clear_expired_cache`);
* the JSON (de)serialization the cache relies on (`json.dumps` / `json.loads`
  as used by `db.py`, modelled by `dumpsVal` / `loads` below, with a proved
  round-trip theorem);
* `src/flow.py` — the technical-indicator engine
  (`_calculate_technical_indicators`);
* the trading-strategy classifier `flow.get_trading_strategy`, whose body is
  not part of the sources (only its caller `src/flow_api.py` and its tests
  are); its fallback behavior is modelled from the specification.

Modelling conventions:

* Instants are integers counting microseconds.  A wall-clock reading
  (Python `datetime.now()`, which is local time) is the pair of an instant
  `t` and a fixed local-timezone offset `off`; SQLite's `'now'` functions
  (`julianday`, `DATE`, `strftime`) read the same instant in UTC, i.e. use
  `t` alone.  Day indices and times-of-day are obtained with Euclidean
  division, so day 0 is 1970-01-01 (a Thursday, Python weekday 3).
* The SQLite table with its `UNIQUE(endpoint, symbol)` upsert is modelled as
  a `List` of rows in insertion order; `SELECT ... fetchone()` is `find?`,
  `DELETE` is `filter`, and the upsert updates matching rows in place.
* JSON values are the inductive `Json` below.  Numbers are integers (the
  payloads' floating-point numbers have no exact embedding); strings are
  `List Char`.  `dumpsVal` mirrors `json.dumps` with its default separators
  `", "` and `": "` and escape table, except that characters ≥ U+007F are
  emitted unescaped (the default `ensure_ascii=True` would `\uXXXX`-escape
  them; the parsed result is identical either way).  `loads` is a fuel-based
  recursive-descent parser for the grammar `dumpsVal` emits, which skips
  whitespace the way `json.loads` does; failure is `none` (the Python code
  catches `JSONDecodeError` and degrades).
* Exception handling: Python functions that catch all exceptions and return
  a default are modelled as total functions returning that default on the
  corresponding branches; "never raises" corresponds to totality of the
  model.
-/

namespace Oobir

/-! ## JSON values

The payloads cached by `db.py` are arbitrary JSON-serializable values
(`json.dumps(data)` on write, `json.loads(data_str)` on read).  `Json` is the
value universe of the model: null, booleans, integers, strings, arrays and
objects, nested arbitrarily. -/

/-- A JSON value, as stored in and retrieved from the cache. -/
inductive Json where
  | null
  | bool (b : Bool)
  | num (n : Int)
  | str (s : List Char)
  | arr (items : List Json)
  | obj (members : List (List Char × Json))

/-- The decimal digit character for `n % 10`. -/
def digitChar (n : Nat) : Char := Char.ofNat (48 + n % 10)

/-- Decimal digits of `n`, most significant first (the digits of `repr(n)`
for a nonnegative Python int). -/
def natDigits (n : Nat) : List Char :=
  if n < 10 then [digitChar n]
  else natDigits (n / 10) ++ [digitChar (n % 10)]
termination_by n
decreasing_by exact Nat.div_lt_self (by omega) (by omega)

/-- The characters of `repr(n)` for a Python int: optional minus sign, then
decimal digits. -/
def dumpInt (n : Int) : List Char :=
  if n < 0 then '-' :: natDigits n.natAbs else natDigits n.natAbs

/-- Lower-case hexadecimal digit character for `n < 16`. -/
def hexDigitChar (n : Nat) : Char :=
  if n < 10 then Char.ofNat (48 + n) else Char.ofNat (97 + (n - 10))

/-- One string character as `json.dumps` emits it: `"` and `\` and the five
named control characters get two-character escapes, the remaining control
characters get `\u00XX`, and everything else passes through.  (`json.dumps`
with its default `ensure_ascii=True` additionally `\uXXXX`-escapes characters
≥ U+007F; the model emits them raw, which `loads` reads back identically.) -/
def escapeChar (c : Char) : List Char :=
  if c = '"' then ['\\', '"']
  else if c = '\\' then ['\\', '\\']
  else if c = '\n' then ['\\', 'n']
  else if c = '\r' then ['\\', 'r']
  else if c = '\t' then ['\\', 't']
  else if c = Char.ofNat 8 then ['\\', 'b']
  else if c = Char.ofNat 12 then ['\\', 'f']
  else if c.toNat < 32 then
    ['\\', 'u', '0', '0', hexDigitChar (c.toNat / 16), hexDigitChar (c.toNat % 16)]
  else [c]

/-- A string's characters, each escaped as `json.dumps` does. -/
def escapeString : List Char → List Char
  | [] => []
  | c :: cs => escapeChar c ++ escapeString cs

/-- A JSON string literal: quote, escaped characters, quote. -/
def quoteString (s : List Char) : List Char :=
  '"' :: (escapeString s ++ ['"'])

mutual
/-- `json.dumps` on a `Json` value, with the default separators `", "` and
`": "` (so `dumps([1, 2])` is `"[1, 2]"` and `dumps({"a": 1})` is
`"{\"a\": 1}"`, as in CPython). -/
def dumpsVal : Json → List Char
  | .null => ['n', 'u', 'l', 'l']
  | .bool b => if b then ['t', 'r', 'u', 'e'] else ['f', 'a', 'l', 's', 'e']
  | .num n => dumpInt n
  | .str s => quoteString s
  | .arr [] => ['[', ']']
  | .arr (x :: xs) => '[' :: (dumpsVal x ++ dumpsArrRest xs ++ [']'])
  | .obj [] => ['\x7b', '\x7d']
  | .obj ((k, v) :: ms) =>
    '\x7b' :: (quoteString k ++ ':' :: ' ' :: dumpsVal v ++ dumpsObjRest ms ++ ['\x7d'])
/-- The remaining array items, each preceded by the `", "` separator. -/
def dumpsArrRest : List Json → List Char
  | [] => []
  | x :: xs => ',' :: ' ' :: (dumpsVal x ++ dumpsArrRest xs)
/-- The remaining object members, each preceded by the `", "` separator. -/
def dumpsObjRest : List (List Char × Json) → List Char
  | [] => []
  | (k, v) :: ms => ',' :: ' ' :: (quoteString k ++ ':' :: ' ' :: dumpsVal v ++ dumpsObjRest ms)
end

/-! ## JSON parsing (`json.loads`)

A fuel-based recursive-descent parser.  `db.get_cached_data` calls
`json.loads` on the stored text and treats a `JSONDecodeError` as a miss, so
the model returns an `Option`.  The parser accepts the grammar `dumpsVal`
emits (integers; no float forms), skipping whitespace between tokens the way
`json.loads` does. -/

/-- JSON insignificant whitespace: space, tab, line feed, carriage return. -/
def isWsChar (c : Char) : Bool := c == ' ' || c == '\t' || c == '\n' || c == '\r'

/-- Drop leading whitespace. -/
def skipWs : List Char → List Char
  | [] => []
  | c :: cs => if isWsChar c then skipWs cs else c :: cs

/-- The value of a hexadecimal digit character, if it is one. -/
def hexVal (c : Char) : Option Nat :=
  if '0' ≤ c && c ≤ '9' then some (c.toNat - 48)
  else if 'a' ≤ c && c ≤ 'f' then some (c.toNat - 97 + 10)
  else if 'A' ≤ c && c ≤ 'F' then some (c.toNat - 65 + 10)
  else none

/-- The character named by a two-character escape (`\"`, `\\`, `\/`, `\n`,
`\t`, `\r`, `\b`, `\f`), if the escape is valid. -/
def unescapeChar : Char → Option Char
  | 'n' => some '\n'
  | 't' => some '\t'
  | 'r' => some '\r'
  | 'b' => some (Char.ofNat 8)
  | 'f' => some (Char.ofNat 12)
  | '/' => some '/'
  | '"' => some '"'
  | '\\' => some '\\'
  | _ => none

/-- Parse the body of a string literal, after its opening quote: unescape
until the closing quote, returning the string and the remaining input. -/
def parseStrBody : List Char → Option (List Char × List Char)
  | [] => none
  | c :: rest =>
    if c = '"' then some ([], rest)
    else if c = '\\' then
      match rest with
      | [] => none
      | 'u' :: a :: b :: c2 :: d :: rest2 =>
        match hexVal a, hexVal b, hexVal c2, hexVal d with
        | some va, some vb, some vc, some vd =>
          (parseStrBody rest2).map
            (fun p => (Char.ofNat (((va * 16 + vb) * 16 + vc) * 16 + vd) :: p.1, p.2))
        | _, _, _, _ => none
      | e :: rest2 =>
        match unescapeChar e with
        | some ch => (parseStrBody rest2).map (fun p => (ch :: p.1, p.2))
        | none => none
    else (parseStrBody rest).map (fun p => (c :: p.1, p.2))

/-- Split off the leading run of decimal digit characters. -/
def takeDigits : List Char → List Char × List Char
  | [] => ([], [])
  | c :: cs =>
    if c.isDigit then
      let p := takeDigits cs
      (c :: p.1, p.2)
    else ([], c :: cs)

/-- The number denoted by a list of decimal digit characters. -/
def digitsVal (ds : List Char) : Nat :=
  ds.foldl (fun a c => a * 10 + (c.toNat - 48)) 0

/-- Parse an integer literal: an optional minus sign and a nonempty digit
run. -/
def parseNumber (cs : List Char) : Option (Json × List Char) :=
  match cs with
  | [] => none
  | c :: rest =>
    if c = '-' then
      let p := takeDigits rest
      if p.1.isEmpty then none else some (.num (-(digitsVal p.1 : Int)), p.2)
    else
      let p := takeDigits (c :: rest)
      if p.1.isEmpty then none else some (.num (digitsVal p.1 : Int), p.2)

/-- `some rest2` when `lit` is a prefix of the input and `rest2` is what
follows it (the scanner's check that e.g. `ull` follows an `n`). -/
def afterLit : List Char → List Char → Option (List Char)
  | [], cs => some cs
  | _ :: _, [] => none
  | p :: ps, c :: cs => if c = p then afterLit ps cs else none

/-- Whether the input starts with the character `c`. -/
def headIs (c : Char) (cs : List Char) : Bool :=
  match cs with
  | [] => false
  | d :: _ => d == c

mutual
/-- Parse one JSON value, dispatching on the first non-whitespace character
the way the CPython `json.scanner` does, spending one unit of fuel per
grammar node. -/
def parseVal : Nat → List Char → Option (Json × List Char)
  | 0, _ => none
  | fuel + 1, cs =>
    match skipWs cs with
    | [] => none
    | c :: r =>
      if c = '"' then (parseStrBody r).map (fun p => (.str p.1, p.2))
      else if c = '\x7b' then
        let r2 := skipWs r
        if headIs '\x7d' r2 then some (.obj [], r2.tail)
        else (parseMembers fuel r2).map (fun p => (.obj p.1, p.2))
      else if c = '[' then
        let r2 := skipWs r
        if headIs ']' r2 then some (.arr [], r2.tail)
        else (parseItems fuel r2).map (fun p => (.arr p.1, p.2))
      else if c = 'n' then (afterLit ['u', 'l', 'l'] r).map (fun r2 => (.null, r2))
      else if c = 't' then (afterLit ['r', 'u', 'e'] r).map (fun r2 => (.bool true, r2))
      else if c = 'f' then (afterLit ['a', 'l', 's', 'e'] r).map (fun r2 => (.bool false, r2))
      else parseNumber (c :: r)
/-- Parse the items of a nonempty array, from the first item up to and
including the closing bracket. -/
def parseItems : Nat → List Char → Option (List Json × List Char)
  | 0, _ => none
  | fuel + 1, cs =>
    match parseVal fuel cs with
    | none => none
    | some (v, r) =>
      match skipWs r with
      | ',' :: r2 => (parseItems fuel r2).map (fun p => (v :: p.1, p.2))
      | ']' :: r2 => some ([v], r2)
      | _ => none
/-- Parse the members of a nonempty object, from the first key up to and
including the closing brace. -/
def parseMembers : Nat → List Char → Option (List (List Char × Json) × List Char)
  | 0, _ => none
  | fuel + 1, cs =>
    match skipWs cs with
    | '"' :: r =>
      (match parseStrBody r with
       | none => none
       | some (k, r1) =>
         match skipWs r1 with
         | ':' :: r2 =>
           (match parseVal fuel r2 with
            | none => none
            | some (v, r3) =>
              match skipWs r3 with
              | ',' :: r4 => (parseMembers fuel r4).map (fun p => ((k, v) :: p.1, p.2))
              | '\x7d' :: r4 => some ([(k, v)], r4)
              | _ => none)
         | _ => none)
    | _ => none
end

/-- `json.loads` on a character list: parse one value and require that only
whitespace follows.  Fuel `length + 1` always suffices (each grammar node
consumes at least one input character; see `jsize_le_length_dumpsVal`). -/
def loads (cs : List Char) : Option Json :=
  match parseVal (cs.length + 1) cs with
  | some (v, r) => if (skipWs r).isEmpty then some v else none
  | none => none

mutual
/-- Grammar-node count of a value: the fuel `parseVal` needs to re-read it. -/
def jsize : Json → Nat
  | .null => 1
  | .bool _ => 1
  | .num _ => 1
  | .str _ => 1
  | .arr xs => 1 + asize xs
  | .obj ms => 1 + osize ms
/-- Fuel needed by `parseItems` for these array items. -/
def asize : List Json → Nat
  | [] => 0
  | x :: xs => 1 + jsize x + asize xs
/-- Fuel needed by `parseMembers` for these object members. -/
def osize : List (List Char × Json) → Nat
  | [] => 0
  | (_, v) :: ms => 1 + jsize v + osize ms
end

/-- Whether the input may legally follow a serialized number: nothing, or a
separator/closer.  (Digits must not follow, or the number parse would
swallow them.) -/
def delimB : List Char → Bool
  | [] => true
  | c :: _ => c == ',' || c == ']' || c == '\x7d'

/-! ## Wall-clock time (`db.py` preliminaries)

Instants `t` are microseconds; `off` is the local-timezone offset, so
Python's `datetime.now()` observes `t + off` while SQLite's `'now'` observes
`t` (UTC).  Euclidean division/`emod` make day index and time-of-day well
defined for all integers; day 0 (1970-01-01) is a Thursday, which is Python
`weekday()` 3. -/

def usPerHour : Int := 3600000000

def usPerDay : Int := 86400000000

/-- `MARKET_OPEN_TIME = time(9, 30)` as a time-of-day in microseconds. -/
def marketOpenTod : Int := 34200000000

/-- `MARKET_CLOSE_TIME = time(16, 0)` as a time-of-day in microseconds. -/
def marketCloseTod : Int := 57600000000

/-- The local time-of-day of instant `t`, in microseconds since midnight. -/
def localTimeOfDay (t off : Int) : Int := (t + off).emod usPerDay

/-- The local calendar-day index of instant `t` (days since 1970-01-01). -/
def localDayIndex (t off : Int) : Int := (t + off).ediv usPerDay

/-- `datetime.now().weekday()`: Monday = 0 … Sunday = 6. -/
def pyWeekday (t off : Int) : Int := (localDayIndex t off + 3).emod 7

/-- `db._is_market_open_now`: weekday and the local time-of-day within the
(inclusive) `MARKET_OPEN_TIME <= now.time() <= MARKET_CLOSE_TIME` bounds. -/
def is_market_open_now (t off : Int) : Bool :=
  if pyWeekday t off < 5 then
    decide (marketOpenTod ≤ localTimeOfDay t off) && decide (localTimeOfDay t off ≤ marketCloseTod)
  else false

/-- `db._should_expire_cache`: the age it computes is `datetime.now()` minus
the stored `cached_at`.  `datetime.now()` reads the local clock, `t + off`,
while `cached_at` was written by SQLite's `CURRENT_TIMESTAMP` — a UTC face
value, equal to the write instant itself — so the computed age is
`(t + off) - cached_at`: the true age plus the local-UTC offset.  Computed
age over 24 hours always expires; otherwise computed age over 1 hour
expires only while the market is open. -/
def should_expire_cache (t off cached_at : Int) : Bool :=
  let age := (t + off) - cached_at
  if age > 24 * usPerHour then true
  else if is_market_open_now t off && decide (age > usPerHour) then true
  else false

/-! ## The cache store (`db.py`)

The SQLite `cache` table, modelled as a list of rows in insertion order.
`UNIQUE(endpoint, symbol)` makes `fetchone()` deterministic (`find?`); the
`ON CONFLICT ... DO UPDATE` upsert updates the matching row in place. -/

/-- One row of the `cache` table (the `id` autoincrement column carries no
information the operations consult and is omitted). -/
structure Row where
  endpoint : String
  symbol : String
  data : List Char
  cached_at : Int
  market_aware : Bool
deriving DecidableEq

/-- The `cache` table: its rows, in insertion (rowid) order. -/
abbrev Store := List Row

/-- The `WHERE endpoint = ? AND symbol = ?` key test. -/
def keyMatches (endpoint symbol : String) (r : Row) : Bool :=
  r.endpoint == endpoint && r.symbol == symbol

/-- `db.get_cached_data`: look up the row for the key; absent is a miss; a
`market_aware` row that `_should_expire_cache` rejects is deleted and the
call reports a miss; otherwise the stored JSON text is parsed and returned
(`loads` is `none` exactly when `json.loads` would raise, which the function
catches and turns into a miss without deleting).  Returns the result and the
table after the call. -/
def get_cached_data (t off : Int) (store : Store) (endpoint symbol : String) :
    Option Json × Store :=
  match store.find? (keyMatches endpoint symbol) with
  | none => (none, store)
  | some row =>
    if row.market_aware && should_expire_cache t off row.cached_at then
      (none, store.filter fun r => !keyMatches endpoint symbol r)
    else (loads row.data, store)

/-- `db.set_cached_data`: serialize the payload and upsert, setting
`cached_at` to the current instant and replacing `market_aware`.  Every
`Json` value is serializable, so the model always reports success (the
Python `except` branch returning `False` fires only for non-JSON payloads,
which are outside the `Json` universe). -/
def set_cached_data (t : Int) (store : Store) (endpoint : String) (data : Json)
    (symbol : String) (market_aware : Bool) : Bool × Store :=
  let ds := dumpsVal data
  if store.any (keyMatches endpoint symbol) then
    (true, store.map fun r =>
      if keyMatches endpoint symbol r then
        { r with data := ds, cached_at := t, market_aware := market_aware }
      else r)
  else (true, store ++ [⟨endpoint, symbol, ds, t, market_aware⟩])

/-- Python truthiness of an optional string argument: `None` and `""` are
both falsy (`clear_cache` branches on `if endpoint and symbol:` …). -/
def truthy : Option String → Bool
  | none => false
  | some s => !s.isEmpty

/-- `db.clear_cache`: delete by both filters, one filter, or all rows,
choosing the branch by argument truthiness; returns the deleted row count
and the table after the call. -/
def clear_cache (store : Store) (endpoint symbol : Option String) : Nat × Store :=
  if truthy endpoint && truthy symbol then
    let p := fun r : Row => r.endpoint == endpoint.getD "" && r.symbol == symbol.getD ""
    ((store.filter p).length, store.filter fun r => !p r)
  else if truthy endpoint then
    let p := fun r : Row => r.endpoint == endpoint.getD ""
    ((store.filter p).length, store.filter fun r => !p r)
  else if truthy symbol then
    let p := fun r : Row => r.symbol == symbol.getD ""
    ((store.filter p).length, store.filter fun r => !p r)
  else (store.length, [])

/-- `db.clear_symbol_cache`: `DELETE FROM cache WHERE symbol = ?`. -/
def clear_symbol_cache (store : Store) (symbol : String) : Nat × Store :=
  ((store.filter fun r => r.symbol == symbol).length,
   store.filter fun r => !(r.symbol == symbol))

/-- `DATE('now')` as a UTC day index. -/
def utcDayIndex (t : Int) : Int := t.ediv usPerDay

/-- `strftime('%H:%M', 'now', '+4 hours')` as minutes since midnight: the
zero-padded string comparison `< '09:30'` is the numeric comparison
`< 570`. -/
def utcPlus4Minutes (t : Int) : Int := ((t + 4 * usPerHour).emod usPerDay).ediv 60000000

/-- The SQL predicate `clear_expired_cache` and `get_cache_stats` share:
`market_aware = 1 AND ((julianday('now') - julianday(cached_at)) * 24 * 3600
> 86400 OR (DATE('now') != DATE(cached_at) AND strftime('%H:%M', 'now', '+4
hours') < '09:30'))`.  Note it reads the clock in UTC and is not the
read-time rule `should_expire_cache`. -/
def sweep_expire (t : Int) (r : Row) : Bool :=
  r.market_aware &&
    (decide (t - r.cached_at > 24 * usPerHour) ||
     (decide (utcDayIndex t ≠ utcDayIndex r.cached_at) && decide (utcPlus4Minutes t < 570)))

/-- `db.clear_expired_cache`: bulk-delete the rows matching `sweep_expire`;
returns the deleted count and the table after the call. -/
def clear_expired_cache (t : Int) (store : Store) : Nat × Store :=
  ((store.filter (sweep_expire t)).length, store.filter fun r => !sweep_expire t r)

/-- First-occurrence deduplication (the distinct endpoints a
`GROUP BY endpoint` produces), with an accumulator of already-seen keys. -/
def uniqueKeysAux (seen : List String) : List String → List String
  | [] => []
  | x :: xs => if x ∈ seen then uniqueKeysAux seen xs else x :: uniqueKeysAux (x :: seen) xs

/-- The distinct elements of `xs`, in first-occurrence order. -/
def uniqueKeys (xs : List String) : List String := uniqueKeysAux [] xs

/-- The dictionary `db.get_cache_stats` returns. -/
structure CacheStats where
  total_entries : Nat
  valid_entries : Nat
  expired_entries : Nat
  by_endpoint : List (String × Nat)
deriving DecidableEq

/-- `db.get_cache_stats`: `total` is the row count, `expired` counts the
rows matching the `sweep_expire` SQL predicate, `valid = total - expired`,
and `by_endpoint` groups ALL rows (valid or not) by endpoint with no
`ORDER BY` (the model fixes first-occurrence order for the groups; SQLite
leaves the order unspecified). -/
def get_cache_stats (t : Int) (store : Store) : CacheStats :=
  let total := store.length
  let expired := (store.filter (sweep_expire t)).length
  { total_entries := total
    valid_entries := total - expired
    expired_entries := expired
    by_endpoint := (uniqueKeys (store.map (·.endpoint))).map fun e =>
      (e, (store.filter fun r => r.endpoint == e).length) }

/-- One mutating call against the cache store (the operations `db.py`
exposes; `get` mutates by deleting an expired row). -/
inductive CacheOp where
  | set (t : Int) (endpoint : String) (data : Json) (symbol : String) (market_aware : Bool)
  | get (t : Int) (endpoint symbol : String)
  | clear (endpoint symbol : Option String)
  | clearSymbol (symbol : String)
  | clearExpired (t : Int)

/-- The table after one cache operation. -/
def applyOp (off : Int) (store : Store) : CacheOp → Store
  | .set t e d s ma => (set_cached_data t store e d s ma).2
  | .get t e s => (get_cached_data t off store e s).2
  | .clear e s => (clear_cache store e s).2
  | .clearSymbol s => (clear_symbol_cache store s).2
  | .clearExpired t => (clear_expired_cache t store).2

/-- The table after a sequence of cache operations. -/
def applyOps (off : Int) (store : Store) (ops : List CacheOp) : Store :=
  ops.foldl (applyOp off) store

/-- Two rows collide on the `UNIQUE(endpoint, symbol)` key. -/
def sameKey (a b : Row) : Prop := a.endpoint = b.endpoint ∧ a.symbol = b.symbol

instance : DecidablePred fun p : Row × Row => sameKey p.1 p.2 :=
  fun _ => by unfold sameKey; infer_instance

/-- The `UNIQUE(endpoint, symbol)` table invariant: no two rows share a
key. -/
def distinctKeys (store : Store) : Prop := store.Pairwise fun a b => ¬sameKey a b

/-- A row matches the filters a `clear` call supplies (each supplied filter
must hold; an absent filter holds vacuously). -/
def matchesFilters (endpoint symbol : Option String) (r : Row) : Bool :=
  (match endpoint with
   | some e => r.endpoint == e
   | none => true) &&
  (match symbol with
   | some s => r.symbol == s
   | none => true)

/-- Insert into a list sorted by descending count, keeping it sorted. -/
def insertDescCount (p : String × Nat) : List (String × Nat) → List (String × Nat)
  | [] => [p]
  | q :: qs => if q.2 ≤ p.2 then p :: q :: qs else q :: insertDescCount p qs

/-- Insertion sort by descending count. -/
def sortDescCount (l : List (String × Nat)) : List (String × Nat) :=
  l.foldr insertDescCount []

/-- Follows the spec's words for `stats().by_endpoint` (for comparison with
the code's behavior): count only rows that currently pass the read-time
expiration rule, group them by endpoint, and order the groups by descending
count. -/
def by_endpoint_valid_spec (t off : Int) (store : Store) : List (String × Nat) :=
  let valid := store.filter fun r => !(r.market_aware && should_expire_cache t off r.cached_at)
  sortDescCount ((uniqueKeys (valid.map (·.endpoint))).map fun e =>
    (e, (valid.filter fun r => r.endpoint == e).length))

/-! ## The technical-indicator engine (`flow._calculate_technical_indicators`)

Numbers are exact rationals (the idealization of the pandas float
computations); a pandas `NaN` "latest" value is `Option.none`.  The source
builds a list of human-readable indicator strings and joins them with
newlines, returning `""` on the guard branches and on any exception; the
model returns the list of appended entries (so `""` is `[]`), each entry a
constructor carrying the numeric content of the formatted string.  The
function is total, mirroring the `try/except` wrapper that turns any
exception into the empty result. -/

/-- The last value of a pandas series (`s.iloc[-1]`), `none` when empty. -/
def lastOpt (xs : List ℚ) : Option ℚ := xs.getLast?

/-- The last `n` elements (`s.tail(n)`). -/
def lastN (n : Nat) (xs : List ℚ) : List ℚ := xs.drop (xs.length - n)

/-- Last value of `s.rolling(window=w).mean()`: `NaN` (= `none`) when fewer
than `w` values exist, else the mean of the final `w`-window. -/
def rollMeanLast (w : Nat) (xs : List ℚ) : Option ℚ :=
  if xs.length < w ∨ w = 0 then none else some ((lastN w xs).sum / w)

/-- Last value of `s.rolling(window=w).std()` — reported as the sample
variance (`ddof=1`) of the final window, since the standard deviation itself
is irrational in general; `none` when pandas would report `NaN`. -/
def rollVarLast (w : Nat) (xs : List ℚ) : Option ℚ :=
  if xs.length < w ∨ w < 2 then none
  else
    let win := lastN w xs
    let m := win.sum / w
    some ((win.map fun x => (x - m) ^ 2).sum / ((w : ℚ) - 1))

/-- `s.diff()` without its leading `NaN`: consecutive differences. -/
def deltaList : List ℚ → List ℚ
  | [] => []
  | [_] => []
  | a :: b :: rest => (b - a) :: deltaList (b :: rest)

/-- `delta.where(delta > 0, 0)`: the gains series.  Position 0 is `0`
because `NaN > 0` is false, so `where` replaces the leading `NaN`. -/
def gainList (xs : List ℚ) : List ℚ :=
  match xs with
  | [] => []
  | _ :: _ => 0 :: (deltaList xs).map fun d => if d > 0 then d else 0

/-- `-delta.where(delta < 0, 0)`: the losses series (nonnegative). -/
def lossList (xs : List ℚ) : List ℚ :=
  match xs with
  | [] => []
  | _ :: _ => 0 :: (deltaList xs).map fun d => if d < 0 then -d else 0

/-- `ewm(span).mean()` with the default `adjust=True`: running weighted
numerator and denominator with weight ratio `1 - alpha`. -/
def ewmaAdjAux (alpha num den : ℚ) : List ℚ → List ℚ
  | [] => []
  | x :: xs =>
    let num2 := x + (1 - alpha) * num
    let den2 := 1 + (1 - alpha) * den
    num2 / den2 :: ewmaAdjAux alpha num2 den2 xs

/-- `s.ewm(span=span).mean()` (`alpha = 2 / (span + 1)`). -/
def ewmaAdj (span : ℚ) (xs : List ℚ) : List ℚ := ewmaAdjAux (2 / (span + 1)) 0 0 xs

/-- `df['MACD'] = ema_12 - ema_26`, elementwise. -/
def macdList (closes : List ℚ) : List ℚ :=
  List.zipWith (· - ·) (ewmaAdj 12 closes) (ewmaAdj 26 closes)

/-- Latest RSI(14).  `rs = gain / loss` follows pandas division: positive
gain over zero loss is `+inf` so RSI is exactly `100`; `0 / 0` is `NaN`
(`none`), in which case the source omits the RSI lines. -/
def rsiLast (closes : List ℚ) : Option ℚ :=
  match rollMeanLast 14 (gainList closes), rollMeanLast 14 (lossList closes) with
  | some g, some l =>
    if l = 0 then (if g = 0 then none else some 100)
    else some (100 - 100 / (1 + g / l))
  | _, _ => none

/-- One entry of the indicator report: a constructor per string the source
appends, carrying the numeric content of the formatted text.  The Bollinger
entries carry the band midpoint and the window's sample variance `var`
(upper/lower band = `mid ± 2·√var`, irrational in general). -/
inductive IndLine where
  | sma20 (v : ℚ)
  | sma50 (v : ℚ)
  | priceAboveSma20 (diff : ℚ)
  | priceBelowSma20 (diff : ℚ)
  | smaBullish
  | smaBearish
  | rsiValue (v : ℚ)
  | rsiOverbought
  | rsiOversold
  | rsiNeutral
  | macdValue (v : ℚ)
  | macdBullish
  | macdBearish
  | bollingerBands (mid variance : ℚ)
  | priceAboveUpperBand
  | priceBelowLowerBand
  | priceWithinBands (close mid variance : ℚ)
  | currentVolume (v : ℚ)
  | avgVolume (v : ℚ)
  | volumeHigh (latest avg : ℚ)
  | volumeLow (latest avg : ℚ)
  | fiveDayHighLow (hi lo : ℚ)
deriving DecidableEq

/-- The Simple Moving Averages block: present only when both SMA(20) and
SMA(50) exist (for a frame that passed the 30-bar guard, exactly when it has
at least 50 bars). -/
def smaBlock (closes : List ℚ) : List IndLine :=
  match rollMeanLast 20 closes, rollMeanLast 50 closes, lastOpt closes with
  | some sma20v, some sma50v, some closeLatest =>
    [.sma20 sma20v, .sma50 sma50v] ++
    (if closeLatest > sma20v then [.priceAboveSma20 (closeLatest - sma20v)]
     else [.priceBelowSma20 (sma20v - closeLatest)]) ++
    (if sma20v > sma50v then [.smaBullish] else [.smaBearish])
  | _, _, _ => []

/-- The RSI block: the value line plus its overbought/oversold/neutral
annotation. -/
def rsiBlock (closes : List ℚ) : List IndLine :=
  match rsiLast closes with
  | some r =>
    [.rsiValue r] ++
    (if r > 70 then [.rsiOverbought] else if r < 30 then [.rsiOversold] else [.rsiNeutral])
  | none => []

/-- The MACD block: latest MACD and signal values with the bullish/bearish
comparison. -/
def macdBlock (closes : List ℚ) : List IndLine :=
  match lastOpt (macdList closes), lastOpt (ewmaAdj 9 (macdList closes)) with
  | some m, some sig =>
    [.macdValue m] ++ (if m > sig then [.macdBullish] else [.macdBearish])
  | _, _ => []

/-- The Bollinger Bands block.  The source's comparisons against
`mid ± 2·√var` are encoded square-free: `close > mid + 2·√var` iff
`close - mid > 0` and `(close - mid)² > 4·var` (and symmetrically below). -/
def bbBlock (closes : List ℚ) : List IndLine :=
  match rollMeanLast 20 closes, rollVarLast 20 closes, lastOpt closes with
  | some mid, some variance, some closeLatest =>
    [.bollingerBands mid variance] ++
    (if closeLatest - mid > 0 ∧ (closeLatest - mid) ^ 2 > 4 * variance then
       [.priceAboveUpperBand]
     else if mid - closeLatest > 0 ∧ (mid - closeLatest) ^ 2 > 4 * variance then
       [.priceBelowLowerBand]
     else [.priceWithinBands closeLatest mid variance])
  | _, _, _ => []

/-- The volume block.  `vol_ratio = latest / avg` follows pandas float
division: over a zero average a positive latest gives `+inf` (HIGH) and a
negative latest gives `-inf` (LOW); `0 / 0` is `NaN`, matching neither
branch. -/
def volumeBlock (volumes : List ℚ) : List IndLine :=
  match lastOpt volumes, rollMeanLast 20 volumes with
  | some vl, some va =>
    [.currentVolume vl, .avgVolume va] ++
    (if va = 0 then
       (if vl > 0 then [.volumeHigh vl va] else if vl < 0 then [.volumeLow vl va] else [])
     else if vl / va > 1.5 then [.volumeHigh vl va]
     else if vl / va < 0.7 then [.volumeLow vl va]
     else [])
  | _, _ => []

/-- The 5-day trend block: high and low of the last five closes. -/
def trendBlock (closes : List ℚ) : List IndLine :=
  match (lastN 5 closes).max?, (lastN 5 closes).min? with
  | some hi, some lo => [.fiveDayHighLow hi lo]
  | _, _ => []

/-- The price DataFrame handed to the indicator engine: its row count, its
column names, and its `Close`/`Volume` columns (each of length `nrows` when
the column is present). -/
structure PriceFrame where
  nrows : Nat
  columns : List String
  close : List ℚ
  volume : List ℚ

/-- `flow._calculate_technical_indicators`: `None` input or fewer than 30
bars or a missing `Close`/`Volume` column yields the empty report; otherwise
the six indicator blocks in source order.  Total — the source wraps the body
in `try/except` and returns `""` on any exception. -/
def calculate_technical_indicators (price_df : Option PriceFrame) : List IndLine :=
  match price_df with
  | none => []
  | some df =>
    if df.nrows < 30 then []
    else if "Close" ∉ df.columns ∨ "Volume" ∉ df.columns then []
    else
      smaBlock df.close ++ rsiBlock df.close ++ macdBlock df.close ++
        bbBlock df.close ++ volumeBlock df.volume ++ trendBlock df.close

/-! ## The trading-strategy classifier (`flow.get_trading_strategy`)

The classifier's body is not among the repository sources — `src/flow_api.py`
calls `flow.get_trading_strategy` and `src/tests/test_trading_strategy.py`
tests it, but `src/flow.py` does not define it.  Its input handling is
therefore modelled from the specification (§4.4): the scoring rubric for a
usable series is left as an explicit parameter `full`, and the fallback path
is the spec's universal WAIT fallback. -/

/-- `strategy_type ∈ {LONG, SHORT, WAIT}`. -/
inductive StrategyType where
  | LONG
  | SHORT
  | WAIT
deriving DecidableEq

/-- `confidence ∈ {HIGH, MEDIUM, LOW}`. -/
inductive Confidence where
  | HIGH
  | MEDIUM
  | LOW
deriving DecidableEq

/-- The analyst price targets embedded in the strategy output. -/
structure AnalystTargets where
  current : Option ℚ
  mean : Option ℚ
  high : Option ℚ
  low : Option ℚ

/-- One usable bar of the classifier's price series (only presence and count
matter to the fallback path; `close`/`volume` feed the rubric). -/
structure PriceBar where
  date : Int
  close : ℚ
  volume : ℚ

/-- The classifier's result object (§4.4's TradingStrategy). -/
structure TradingStrategy where
  strategy_type : StrategyType
  confidence : Confidence
  current_price : Option ℚ
  entry_target : Option ℚ
  exit_targets : List (ℚ × ℚ)
  stop_loss : Option ℚ
  risk_reward_ratio : Option ℚ
  signals : List String
  timeframe : String
  error : Option String

/-- Modelled from the spec: the universal WAIT fallback of §4.4 step 1 —
`{strategy_type: WAIT, confidence: LOW, error: "<reason>", exit_targets: [],
…other fields null/empty}`, with the timeframe advising to wait for clearer
signals. -/
def waitFallback (reason : String) : TradingStrategy where
  strategy_type := .WAIT
  confidence := .LOW
  current_price := none
  entry_target := none
  exit_targets := []
  stop_loss := none
  risk_reward_ratio := none
  signals := []
  timeframe := "Wait for clearer signals"
  error := some reason

/-- Modelled from the spec: `classify(price_series, analyst_targets)` of
§4.4 — an absent series or one with fewer than 20 usable bars returns the
WAIT fallback immediately; otherwise the scoring rubric `full` (steps 2–6,
left parametric) runs.  Total: the fallback never raises. -/
def classify (full : List PriceBar → AnalystTargets → TradingStrategy)
    (price_series : Option (List PriceBar)) (targets : AnalystTargets) : TradingStrategy :=
  match price_series with
  | none => waitFallback "Unable to fetch price data"
  | some bars =>
    if bars.length < 20 then
      waitFallback "Insufficient price history: fewer than 20 usable bars"
    else full bars targets

/-- Modelled from the spec: `flow.get_trading_strategy` around `classify` —
a fetch or parse failure (`.error`) is converted to the same WAIT fallback
as an absent series, never propagated. -/
def get_trading_strategy (full : List PriceBar → AnalystTargets → TradingStrategy)
    (fetched : Except String (Option (List PriceBar))) (targets : AnalystTargets) :
    TradingStrategy :=
  match fetched with
  | .error e => waitFallback ("Unable to fetch price data: " ++ e)
  | .ok series => classify full series targets

/-! ## Digit and character lemmas -/

theorem digitChar_isDigit (n : Nat) : (digitChar n).isDigit = true := by
  have h : n % 10 = 0 ∨ n % 10 = 1 ∨ n % 10 = 2 ∨ n % 10 = 3 ∨ n % 10 = 4 ∨ n % 10 = 5 ∨
      n % 10 = 6 ∨ n % 10 = 7 ∨ n % 10 = 8 ∨ n % 10 = 9 := by omega
  unfold digitChar
  rcases h with h | h | h | h | h | h | h | h | h | h <;> rw [h] <;> decide

theorem digitChar_toNat (n : Nat) : (digitChar n).toNat = 48 + n % 10 := by
  have h : n % 10 = 0 ∨ n % 10 = 1 ∨ n % 10 = 2 ∨ n % 10 = 3 ∨ n % 10 = 4 ∨ n % 10 = 5 ∨
      n % 10 = 6 ∨ n % 10 = 7 ∨ n % 10 = 8 ∨ n % 10 = 9 := by omega
  unfold digitChar
  rcases h with h | h | h | h | h | h | h | h | h | h <;> rw [h] <;> decide

theorem not_ws_of_isDigit (c : Char) (h : c.isDigit = true) : isWsChar c = false := by
  have h1 : c ≠ ' ' := by rintro rfl; exact absurd h (by decide)
  have h2 : c ≠ '\t' := by rintro rfl; exact absurd h (by decide)
  have h3 : c ≠ '\n' := by rintro rfl; exact absurd h (by decide)
  have h4 : c ≠ '\r' := by rintro rfl; exact absurd h (by decide)
  simp [isWsChar, h1, h2, h3, h4]

theorem isDigit_ne (c : Char) (h : c.isDigit = true) :
    c ≠ '"' ∧ c ≠ '\x7b' ∧ c ≠ '[' ∧ c ≠ 'n' ∧ c ≠ 't' ∧ c ≠ 'f' ∧ c ≠ '-' ∧
      c ≠ ']' ∧ c ≠ '\x7d' := by
  refine ⟨?_, ?_, ?_, ?_, ?_, ?_, ?_, ?_, ?_⟩ <;> (rintro rfl; exact absurd h (by decide))

/-! ## `natDigits` / `parseNumber` round-trip -/

theorem natDigits_ne_nil (n : Nat) : natDigits n ≠ [] := by
  unfold natDigits
  split
  · simp
  · simp

theorem natDigits_all_digits (n : Nat) : ∀ c ∈ natDigits n, c.isDigit = true := by
  induction n using Nat.strong_induction_on with
  | _ n ih =>
    unfold natDigits
    split
    · intro c hc
      rw [List.mem_singleton] at hc
      subst hc
      exact digitChar_isDigit n
    · intro c hc
      rw [List.mem_append] at hc
      rcases hc with hc | hc
      · exact ih (n / 10) (Nat.div_lt_self (by omega) (by omega)) c hc
      · rw [List.mem_singleton] at hc
        subst hc
        exact digitChar_isDigit _

theorem natDigits_foldl (n : Nat) :
    ∀ a : Nat, (natDigits n).foldl (fun a c => a * 10 + (c.toNat - 48)) a =
      a * 10 ^ (natDigits n).length + n := by
  induction n using Nat.strong_induction_on with
  | _ n ih =>
    intro a
    rw [natDigits]
    split
    · next h =>
      simp [List.foldl, digitChar_toNat]
      omega
    · next h =>
      rw [List.foldl_append, ih (n / 10) (Nat.div_lt_self (by omega) (by omega)) a]
      simp only [List.foldl, digitChar_toNat, List.length_append, List.length_singleton]
      rw [pow_succ, show a * (10 ^ (natDigits (n / 10)).length * 10) =
        a * 10 ^ (natDigits (n / 10)).length * 10 from by ring]
      generalize a * 10 ^ (natDigits (n / 10)).length = C
      omega

theorem digitsVal_natDigits (n : Nat) : digitsVal (natDigits n) = n := by
  unfold digitsVal
  rw [natDigits_foldl n 0]
  simp

theorem takeDigits_append (ds rest : List Char) (hds : ∀ c ∈ ds, c.isDigit = true)
    (hrest : ∀ c, rest.head? = some c → c.isDigit = false) :
    takeDigits (ds ++ rest) = (ds, rest) := by
  induction ds with
  | nil =>
    simp only [List.nil_append]
    cases rest with
    | nil => rfl
    | cons c cs =>
      have := hrest c rfl
      simp [takeDigits, this]
  | cons d ds ih =>
    have hd : d.isDigit = true := hds d (by simp)
    have htl : ∀ c ∈ ds, c.isDigit = true := fun c hc => hds c (by simp [hc])
    simp [takeDigits, hd, ih htl]

theorem delim_head_not_digit (rest : List Char) (h : delimB rest = true) :
    ∀ c, rest.head? = some c → c.isDigit = false := by
  intro c hc
  cases rest with
  | nil => simp at hc
  | cons d cs =>
    simp only [List.head?] at hc
    injection hc with hc
    subst hc
    simp only [delimB, Bool.or_eq_true, beq_iff_eq] at h
    rcases h with (h | h) | h <;> subst h <;> decide

theorem parseNumber_dumpInt (n : Int) (rest : List Char)
    (hrest : ∀ c, rest.head? = some c → c.isDigit = false) :
    parseNumber (dumpInt n ++ rest) = some (.num n, rest) := by
  unfold dumpInt
  by_cases hn : n < 0
  · rw [if_pos hn]
    have htd := takeDigits_append (natDigits n.natAbs) rest (natDigits_all_digits _) hrest
    have hne := natDigits_ne_nil n.natAbs
    simp [parseNumber, htd, hne, List.isEmpty_iff, digitsVal_natDigits]
    rw [abs_of_neg hn, neg_neg]
  · rw [if_neg hn]
    obtain ⟨d, ds, hd⟩ : ∃ d ds, natDigits n.natAbs = d :: ds := by
      cases h : natDigits n.natAbs with
      | nil => exact absurd h (natDigits_ne_nil _)
      | cons d ds => exact ⟨d, ds, rfl⟩
    have hdig : d.isDigit = true := natDigits_all_digits n.natAbs d (by rw [hd]; simp)
    have hdne := isDigit_ne d hdig
    have htd := takeDigits_append (natDigits n.natAbs) rest (natDigits_all_digits _) hrest
    rw [hd] at htd ⊢
    have hne : ¬(d = '-') := hdne.2.2.2.2.2.2.1
    simp only [List.cons_append, parseNumber, if_neg hne]
    rw [show d :: (ds ++ rest) = (d :: ds) ++ rest from rfl, htd]
    have : digitsVal (d :: ds) = n.natAbs := by rw [← hd]; exact digitsVal_natDigits _
    simp [this]
    omega

/-! ## String-escape round-trip -/

theorem hexVal_hexDigitChar : ∀ n < 16, hexVal (hexDigitChar n) = some n := by decide

theorem parseStrBody_escape (s rest : List Char) :
    parseStrBody (escapeString s ++ '"' :: rest) = some (s, rest) := by
  induction s with
  | nil =>
    show parseStrBody ([] ++ '"' :: rest) = _
    rw [List.nil_append, parseStrBody.eq_def]
    simp
  | cons c cs ih =>
    show parseStrBody ((escapeChar c ++ escapeString cs) ++ '"' :: rest) = _
    rw [List.append_assoc]
    unfold escapeChar
    split_ifs with h1 h2 h3 h4 h5 h6 h7 h8
    · subst h1
      simp [parseStrBody, unescapeChar, ih]
    · subst h2
      simp [parseStrBody, unescapeChar, ih]
    · subst h3
      simp [parseStrBody, unescapeChar, ih]
    · subst h4
      simp [parseStrBody, unescapeChar, ih]
    · subst h5
      simp [parseStrBody, unescapeChar, ih]
    · rw [show c = Char.ofNat 8 from h6]
      simp [parseStrBody, unescapeChar, ih]
    · rw [show c = Char.ofNat 12 from h7]
      simp [parseStrBody, unescapeChar, ih]
    · have hhi : hexVal (hexDigitChar (c.toNat / 16)) = some (c.toNat / 16) :=
        hexVal_hexDigitChar _ (by omega)
      have hlo : hexVal (hexDigitChar (c.toNat % 16)) = some (c.toNat % 16) :=
        hexVal_hexDigitChar _ (by omega)
      have h0 : hexVal '0' = some 0 := by decide
      have hnum : ((0 * 16 + 0) * 16 + c.toNat / 16) * 16 + c.toNat % 16 = c.toNat := by omega
      rw [List.cons_append, parseStrBody.eq_def]
      simp only [List.cons_append]
      simp [h0, hhi, hlo, ih, hnum, Char.ofNat_toNat]
      rw [show c.toNat / 16 * 16 + c.toNat % 16 = c.toNat from by omega, Char.ofNat_toNat]
    · rw [parseStrBody.eq_def]
      simp [h1, h2, ih]

/-! ## Whitespace and unfolding lemmas for the parser -/

theorem skipWs_cons_ws (c : Char) (cs : List Char) (h : isWsChar c = true) :
    skipWs (c :: cs) = skipWs cs := by
  simp [skipWs, h]

theorem skipWs_not_ws (c : Char) (cs : List Char) (h : isWsChar c = false) :
    skipWs (c :: cs) = c :: cs := by
  simp [skipWs, h]

theorem parseVal_cons_ws (fuel : Nat) (c : Char) (cs : List Char) (h : isWsChar c = true) :
    parseVal fuel (c :: cs) = parseVal fuel cs := by
  cases fuel with
  | zero => rfl
  | succ f =>
    rw [parseVal.eq_def]
    conv_rhs => rw [parseVal.eq_def]
    simp only [skipWs_cons_ws c cs h]

theorem parseItems_cons_ws (fuel : Nat) (c : Char) (cs : List Char) (h : isWsChar c = true) :
    parseItems fuel (c :: cs) = parseItems fuel cs := by
  cases fuel with
  | zero => rfl
  | succ f =>
    rw [parseItems.eq_def]
    conv_rhs => rw [parseItems.eq_def]
    simp only [parseVal_cons_ws f c cs h]

theorem parseMembers_cons_ws (fuel : Nat) (c : Char) (cs : List Char) (h : isWsChar c = true) :
    parseMembers fuel (c :: cs) = parseMembers fuel cs := by
  cases fuel with
  | zero => rfl
  | succ f =>
    rw [parseMembers.eq_def]
    conv_rhs => rw [parseMembers.eq_def]
    simp only [skipWs_cons_ws c cs h]

theorem dumpsVal_head (v : Json) :
    ∃ c z, dumpsVal v = c :: z ∧ isWsChar c = false ∧ (c == ']') = false ∧
      (c == '\x7d') = false := by
  cases v with
  | null => exact ⟨'n', ['u', 'l', 'l'], by simp [dumpsVal], by decide, by decide, by decide⟩
  | bool b =>
    cases b with
    | true => exact ⟨'t', ['r', 'u', 'e'], by simp [dumpsVal], by decide, by decide, by decide⟩
    | false =>
      exact ⟨'f', ['a', 'l', 's', 'e'], by simp [dumpsVal], by decide, by decide, by decide⟩
  | num n =>
    by_cases hn : n < 0
    · exact ⟨'-', natDigits n.natAbs, by simp [dumpsVal, dumpInt, hn], by decide, by decide,
        by decide⟩
    · obtain ⟨d, ds, hd⟩ : ∃ d ds, natDigits n.natAbs = d :: ds := by
        cases h : natDigits n.natAbs with
        | nil => exact absurd h (natDigits_ne_nil _)
        | cons d ds => exact ⟨d, ds, rfl⟩
      have hdig : d.isDigit = true := natDigits_all_digits n.natAbs d (by rw [hd]; simp)
      obtain ⟨_, _, _, _, _, _, _, q8, q9⟩ := isDigit_ne d hdig
      refine ⟨d, ds, by simp [dumpsVal, dumpInt, hn, hd], not_ws_of_isDigit d hdig, ?_, ?_⟩
      · simp [q8]
      · simp [q9]
  | str s =>
    exact ⟨'"', escapeString s ++ ['"'], by simp [dumpsVal, quoteString], by decide, by decide,
      by decide⟩
  | arr items =>
    cases items with
    | nil => exact ⟨'[', [']'], by simp [dumpsVal], by decide, by decide, by decide⟩
    | cons x xs =>
      exact ⟨'[', dumpsVal x ++ (dumpsArrRest xs ++ [']']), by simp [dumpsVal], by decide,
        by decide, by decide⟩
  | obj members =>
    cases members with
    | nil => exact ⟨'\x7b', ['\x7d'], by simp [dumpsVal], by decide, by decide, by decide⟩
    | cons m ms =>
      obtain ⟨k, v⟩ := m
      exact ⟨'\x7b', quoteString k ++ ':' :: ' ' :: (dumpsVal v ++ (dumpsObjRest ms ++ ['\x7d'])),
        by simp [dumpsVal], by decide, by decide, by decide⟩

theorem jsize_pos (v : Json) : 1 ≤ jsize v := by
  cases v <;> simp [jsize]

/-! ## The serializer/parser round-trip -/

theorem parseVal_succ (f : Nat) (cs : List Char) :
    parseVal (f + 1) cs =
      match skipWs cs with
      | [] => none
      | c :: r =>
        if c = '"' then (parseStrBody r).map (fun p => (.str p.1, p.2))
        else if c = '\x7b' then
          let r2 := skipWs r
          if headIs '\x7d' r2 then some (.obj [], r2.tail)
          else (parseMembers f r2).map (fun p => (.obj p.1, p.2))
        else if c = '[' then
          let r2 := skipWs r
          if headIs ']' r2 then some (.arr [], r2.tail)
          else (parseItems f r2).map (fun p => (.arr p.1, p.2))
        else if c = 'n' then (afterLit ['u', 'l', 'l'] r).map (fun r2 => (.null, r2))
        else if c = 't' then (afterLit ['r', 'u', 'e'] r).map (fun r2 => (.bool true, r2))
        else if c = 'f' then (afterLit ['a', 'l', 's', 'e'] r).map (fun r2 => (.bool false, r2))
        else parseNumber (c :: r) := by
  rw [parseVal.eq_def]

theorem parseItems_succ (f : Nat) (cs : List Char) :
    parseItems (f + 1) cs =
      match parseVal f cs with
      | none => none
      | some (v, r) =>
        match skipWs r with
        | ',' :: r2 => (parseItems f r2).map (fun p => (v :: p.1, p.2))
        | ']' :: r2 => some ([v], r2)
        | _ => none := by
  rw [parseItems.eq_def]

theorem parseMembers_succ (f : Nat) (cs : List Char) :
    parseMembers (f + 1) cs =
      match skipWs cs with
      | '"' :: r =>
        (match parseStrBody r with
         | none => none
         | some (k, r1) =>
           match skipWs r1 with
           | ':' :: r2 =>
             (match parseVal f r2 with
              | none => none
              | some (v, r3) =>
                match skipWs r3 with
                | ',' :: r4 => (parseMembers f r4).map (fun p => ((k, v) :: p.1, p.2))
                | '\x7d' :: r4 => some ([(k, v)], r4)
                | _ => none)
           | _ => none)
      | _ => none := by
  rw [parseMembers.eq_def]

theorem jsize_arr_cons (x : Json) (xs : List Json) :
    jsize (.arr (x :: xs)) = 1 + (1 + jsize x + asize xs) := by
  simp [jsize, asize]

theorem parse_dumps (fuel : Nat) :
    (∀ v rest, jsize v ≤ fuel → delimB rest = true →
      parseVal fuel (dumpsVal v ++ rest) = some (v, rest)) ∧
    (∀ x xs rest, asize (x :: xs) ≤ fuel → delimB rest = true →
      parseItems fuel (dumpsVal x ++ (dumpsArrRest xs ++ ']' :: rest)) = some (x :: xs, rest)) ∧
    (∀ k v ms rest, osize ((k, v) :: ms) ≤ fuel → delimB rest = true →
      parseMembers fuel
        ('"' :: (escapeString k ++ '"' :: (':' :: ' ' ::
          (dumpsVal v ++ (dumpsObjRest ms ++ '\x7d' :: rest))))) =
        some ((k, v) :: ms, rest)) := by
  induction fuel with
  | zero =>
    refine ⟨fun v rest hsz _ => absurd hsz (by have := jsize_pos v; omega),
      fun x xs rest hsz _ => absurd hsz (by simp [asize]),
      fun k v ms rest hsz _ => absurd hsz (by simp [osize])⟩
  | succ f ih =>
    obtain ⟨ihv, ihi, ihm⟩ := ih
    refine ⟨?_, ?_, ?_⟩
    · -- parseVal
      intro v rest hsz hdel
      cases v with
      | null =>
        have hq : dumpsVal Json.null = ['n', 'u', 'l', 'l'] := by simp [dumpsVal]
        rw [hq, parseVal_succ]
        simp [skipWs, isWsChar, afterLit]
      | bool b =>
        cases b with
        | true =>
          have hq : dumpsVal (.bool true) = ['t', 'r', 'u', 'e'] := by simp [dumpsVal]
          rw [hq, parseVal_succ]
          simp [skipWs, isWsChar, afterLit]
        | false =>
          have hq : dumpsVal (.bool false) = ['f', 'a', 'l', 's', 'e'] := by simp [dumpsVal]
          rw [hq, parseVal_succ]
          simp [skipWs, isWsChar, afterLit]
      | num n =>
        have hpn := parseNumber_dumpInt n rest (delim_head_not_digit rest hdel)
        have hq : dumpsVal (.num n) = dumpInt n := by simp [dumpsVal]
        rw [hq]
        unfold dumpInt at *
        by_cases hn : n < 0
        · rw [if_pos hn] at *
          rw [parseVal_succ]
          simp only [List.cons_append, skipWs_not_ws '-' _ (by decide)]
          simp only [if_neg (by decide : ¬('-' = '"')), if_neg (by decide : ¬('-' = '\x7b')),
            if_neg (by decide : ¬('-' = '[')), if_neg (by decide : ¬('-' = 'n')),
            if_neg (by decide : ¬('-' = 't')), if_neg (by decide : ¬('-' = 'f'))]
          exact hpn
        · rw [if_neg hn] at *
          obtain ⟨d, ds, hd2⟩ : ∃ d ds, natDigits n.natAbs = d :: ds := by
            cases h : natDigits n.natAbs with
            | nil => exact absurd h (natDigits_ne_nil _)
            | cons d ds => exact ⟨d, ds, rfl⟩
          have hdig : d.isDigit = true := natDigits_all_digits n.natAbs d (by rw [hd2]; simp)
          obtain ⟨q1, q2, q3, q4, q5, q6, q7, q8, q9⟩ := isDigit_ne d hdig
          rw [hd2] at hpn ⊢
          rw [parseVal_succ]
          simp only [List.cons_append, skipWs_not_ws d _ (not_ws_of_isDigit d hdig)]
          simp only [if_neg q1, if_neg q2, if_neg q3, if_neg q4, if_neg q5, if_neg q6]
          exact hpn
      | str s =>
        have hq : dumpsVal (.str s) = '"' :: (escapeString s ++ ['"']) := by
          simp [dumpsVal, quoteString]
        rw [hq, parseVal_succ]
        simp only [List.cons_append, skipWs_not_ws '"' _ (by decide), if_pos rfl]
        rw [List.append_assoc]
        simp [parseStrBody_escape s rest]
      | arr items =>
        cases items with
        | nil =>
          have hq : dumpsVal (.arr []) = ['[', ']'] := by simp [dumpsVal]
          rw [hq, parseVal_succ]
          simp [skipWs, isWsChar, headIs]
        | cons x xs =>
          have hq : dumpsVal (.arr (x :: xs)) ++ rest =
              '[' :: (dumpsVal x ++ (dumpsArrRest xs ++ ']' :: rest)) := by
            simp [dumpsVal]
          rw [hq, parseVal_succ]
          obtain ⟨c0, z0, hz, hw, hb1, hb2⟩ := dumpsVal_head x
          rw [hz]
          simp only [List.cons_append, skipWs_not_ws '[' _ (by decide),
            if_neg (by decide : ¬('[' = '"')), if_neg (by decide : ¬('[' = '\x7b')),
            if_pos rfl, skipWs_not_ws c0 _ hw]
          simp only [headIs, hb1]
          rw [← List.cons_append, ← hz]
          have hsz2 : asize (x :: xs) ≤ f := by
            rw [jsize_arr_cons] at hsz
            simp only [asize]
            omega
          rw [ihi x xs rest hsz2 hdel]
          rfl
      | obj members =>
        cases members with
        | nil =>
          have hq : dumpsVal (.obj []) = ['\x7b', '\x7d'] := by simp [dumpsVal]
          rw [hq, parseVal_succ]
          simp [skipWs, isWsChar, headIs]
        | cons m ms =>
          obtain ⟨k, v⟩ := m
          have hq : dumpsVal (.obj ((k, v) :: ms)) ++ rest =
              '\x7b' :: '"' :: (escapeString k ++ '"' :: (':' :: ' ' ::
                (dumpsVal v ++ (dumpsObjRest ms ++ '\x7d' :: rest)))) := by
            simp [dumpsVal, quoteString]
          rw [hq, parseVal_succ]
          simp only [skipWs_not_ws '\x7b' _ (by decide),
            if_neg (by decide : ¬('\x7b' = '"')), if_pos rfl,
            skipWs_not_ws '"' _ (by decide)]
          simp only [headIs, show ('"' == '\x7d') = false from by decide]
          have hsz2 : osize ((k, v) :: ms) ≤ f := by
            simp only [jsize] at hsz
            omega
          rw [ihm k v ms rest hsz2 hdel]
          rfl
    · -- parseItems
      intro x xs rest hsz hdel
      have hjx : jsize x ≤ f := by
        simp only [asize] at hsz
        have := jsize_pos x
        omega
      have hdel2 : delimB (dumpsArrRest xs ++ ']' :: rest) = true := by
        cases xs with
        | nil => simp [dumpsArrRest, delimB]
        | cons y ys => simp [dumpsArrRest, delimB]
      rw [parseItems_succ]
      rw [ihv x (dumpsArrRest xs ++ ']' :: rest) hjx hdel2]
      cases xs with
      | nil =>
        simp [dumpsArrRest, skipWs, isWsChar]
      | cons y ys =>
        have harr : dumpsArrRest (y :: ys) ++ ']' :: rest =
            ',' :: ' ' :: (dumpsVal y ++ (dumpsArrRest ys ++ ']' :: rest)) := by
          simp [dumpsArrRest]
        rw [harr]
        simp only [skipWs_not_ws ',' _ (by decide)]
        rw [parseItems_cons_ws f ' ' _ (by decide)]
        have hsz2 : asize (y :: ys) ≤ f := by
          simp only [asize] at hsz ⊢
          have := jsize_pos x
          omega
        rw [ihi y ys rest hsz2 hdel]
        rfl
    · -- parseMembers
      intro k v ms rest hsz hdel
      have hjv : jsize v ≤ f := by
        simp only [osize] at hsz
        omega
      have hdel2 : delimB (dumpsObjRest ms ++ '\x7d' :: rest) = true := by
        cases ms with
        | nil => simp [dumpsObjRest, delimB]
        | cons m2 ms2 =>
          obtain ⟨k2, v2⟩ := m2
          simp [dumpsObjRest, delimB]
      rw [parseMembers_succ]
      simp only [skipWs_not_ws '"' _ (by decide)]
      rw [show escapeString k ++ '"' :: (':' :: ' ' ::
          (dumpsVal v ++ (dumpsObjRest ms ++ '\x7d' :: rest))) =
        escapeString k ++ '"' :: (':' :: ' ' ::
          (dumpsVal v ++ (dumpsObjRest ms ++ '\x7d' :: rest))) from rfl]
      rw [parseStrBody_escape k _]
      simp only [skipWs_not_ws ':' _ (by decide)]
      rw [parseVal_cons_ws f ' ' _ (by decide)]
      rw [ihv v (dumpsObjRest ms ++ '\x7d' :: rest) hjv hdel2]
      cases ms with
      | nil =>
        simp [dumpsObjRest, skipWs, isWsChar]
      | cons m2 ms2 =>
        obtain ⟨k2, v2⟩ := m2
        have hobj : dumpsObjRest ((k2, v2) :: ms2) ++ '\x7d' :: rest =
            ',' :: ' ' :: '"' :: (escapeString k2 ++ '"' :: (':' :: ' ' ::
              (dumpsVal v2 ++ (dumpsObjRest ms2 ++ '\x7d' :: rest)))) := by
          simp [dumpsObjRest, quoteString]
        rw [hobj]
        simp only [skipWs_not_ws ',' _ (by decide)]
        rw [parseMembers_cons_ws f ' ' _ (by decide)]
        have hsz2 : osize ((k2, v2) :: ms2) ≤ f := by
          simp only [osize] at hsz ⊢
          have := jsize_pos v
          omega
        rw [ihm k2 v2 ms2 rest hsz2 hdel]
        rfl

mutual
theorem jsize_le_dumpsVal : ∀ v : Json, jsize v ≤ (dumpsVal v).length
  | .null => by simp [jsize, dumpsVal]
  | .bool b => by cases b <;> simp [jsize, dumpsVal]
  | .num n => by
    have h1 : 1 ≤ (natDigits n.natAbs).length :=
      List.length_pos.mpr (natDigits_ne_nil n.natAbs)
    simp only [jsize, dumpsVal, dumpInt]
    split
    all_goals simp
    all_goals omega
  | .str s => by simp [jsize, dumpsVal, quoteString]
  | .arr [] => by simp [jsize, asize, dumpsVal]
  | .arr (x :: xs) => by
    have h1 := jsize_le_dumpsVal x
    have h2 := asize_le_dumpsArrRest xs
    simp only [jsize, asize, dumpsVal, List.length_cons, List.length_append,
      List.length_singleton]
    omega
  | .obj [] => by simp [jsize, osize, dumpsVal]
  | .obj ((k, v) :: ms) => by
    have h1 := jsize_le_dumpsVal v
    have h2 := osize_le_dumpsObjRest ms
    simp only [jsize, osize, dumpsVal, quoteString, List.length_cons, List.length_append,
      List.length_singleton]
    omega
theorem asize_le_dumpsArrRest : ∀ xs : List Json, asize xs ≤ (dumpsArrRest xs).length
  | [] => by simp [asize, dumpsArrRest]
  | x :: xs => by
    have h1 := jsize_le_dumpsVal x
    have h2 := asize_le_dumpsArrRest xs
    simp only [asize, dumpsArrRest, List.length_cons, List.length_append]
    omega
theorem osize_le_dumpsObjRest : ∀ ms : List (List Char × Json), osize ms ≤ (dumpsObjRest ms).length
  | [] => by simp [osize, dumpsObjRest]
  | (k, v) :: ms => by
    have h1 := jsize_le_dumpsVal v
    have h2 := osize_le_dumpsObjRest ms
    simp only [osize, dumpsObjRest, quoteString, List.length_cons, List.length_append,
      List.length_singleton]
    omega
end

/-- The JSON codec round-trip: `json.loads(json.dumps(v))` recovers `v`
exactly, for every value in the model's JSON universe. -/
theorem loads_dumps (v : Json) : loads (dumpsVal v) = some v := by
  unfold loads
  have h1 : jsize v ≤ (dumpsVal v).length + 1 := by
    have := jsize_le_dumpsVal v
    omega
  have h2 := (parse_dumps ((dumpsVal v).length + 1)).1 v [] h1 (by decide)
  rw [List.append_nil] at h2
  rw [h2]
  simp [skipWs]

/-! ## Cache-store lemmas -/

theorem truthy_some (s : String) : truthy (some s) = true ↔ s ≠ "" := by
  constructor
  · intro h hs
    subst hs
    exact absurd h (by decide)
  · intro h
    have hb : s.isEmpty = false := by
      cases hb : s.isEmpty
      · rfl
      · exact absurd ((String.isEmpty_iff s).mp hb) h
    simp [truthy, hb]

theorem length_filter_lt_of_mem {α : Type} (l : List α) (p : α → Bool) (r : α)
    (h1 : r ∈ l) (h2 : p r = false) : (l.filter p).length < l.length := by
  induction l with
  | nil => simp at h1
  | cons a l ih =>
    rcases List.mem_cons.mp h1 with h | h
    · subst h
      rw [List.filter_cons, if_neg (by simp [h2])]
      have := List.length_filter_le p l
      simp only [List.length_cons]
      omega
    · rw [List.filter_cons]
      have := ih h
      split
      · simp only [List.length_cons]
        omega
      · simp only [List.length_cons]
        omega

theorem keyMatches_iff (e s : String) (r : Row) :
    keyMatches e s r = true ↔ r.endpoint = e ∧ r.symbol = s := by
  simp [keyMatches]

theorem should_expire_eq (t off c : Int) :
    should_expire_cache t off c =
      (decide (t + off - c > 24 * usPerHour) ||
        (is_market_open_now t off && decide (t + off - c > usPerHour))) := by
  simp only [should_expire_cache]
  split_ifs with h1 h2
  · simp [h1]
  · simp_all
  · simp_all

theorem should_expire_iff (t off c : Int) :
    should_expire_cache t off c = true ↔
      (t + off - c > 24 * usPerHour ∨
        (pyWeekday t off < 5 ∧ marketOpenTod ≤ localTimeOfDay t off ∧
          localTimeOfDay t off ≤ marketCloseTod ∧ t + off - c > usPerHour)) := by
  rw [should_expire_eq]
  unfold is_market_open_now
  by_cases h2 : pyWeekday t off < 5
  · simp [h2, and_assoc]
  · simp [h2, and_assoc]

theorem should_expire_write_iff (t off : Int) :
    should_expire_cache t off t = true ↔
      (off > 24 * usPerHour ∨
        (pyWeekday t off < 5 ∧ marketOpenTod ≤ localTimeOfDay t off ∧
          localTimeOfDay t off ≤ marketCloseTod ∧ off > usPerHour)) := by
  have h : t + off - t = off := by ring
  rw [should_expire_iff, h]

theorem set_snd_cons_not_match (t : Int) (r : Row) (store : Store) (e : String) (v : Json)
    (s : String) (ma : Bool) (h : keyMatches e s r = false) :
    (set_cached_data t (r :: store) e v s ma).2 = r :: (set_cached_data t store e v s ma).2 := by
  unfold set_cached_data
  cases ha : store.any (keyMatches e s) with
  | true => simp [List.any_cons, ha, h]
  | false => simp [List.any_cons, ha, h]

theorem set_snd_cons_match (t : Int) (r : Row) (store : Store) (e : String) (v : Json)
    (s : String) (ma : Bool) (h : keyMatches e s r = true) :
    (set_cached_data t (r :: store) e v s ma).2 =
      ⟨r.endpoint, r.symbol, dumpsVal v, t, ma⟩ ::
        store.map (fun x => if keyMatches e s x then
          ⟨x.endpoint, x.symbol, dumpsVal v, t, ma⟩ else x) := by
  unfold set_cached_data
  simp [List.any_cons, h]

theorem find?_set (t : Int) (store : Store) (e : String) (v : Json) (s : String) (ma : Bool) :
    (set_cached_data t store e v s ma).2.find? (keyMatches e s) =
      some ⟨e, s, dumpsVal v, t, ma⟩ := by
  induction store with
  | nil =>
    simp [set_cached_data, List.find?, keyMatches]
  | cons r store ih =>
    by_cases h : keyMatches e s r = true
    · obtain ⟨he, hs⟩ := (keyMatches_iff e s r).mp h
      rw [set_snd_cons_match t r store e v s ma h]
      have hku : keyMatches e s ⟨r.endpoint, r.symbol, dumpsVal v, t, ma⟩ = true := by
        simp [keyMatches, he, hs]
      rw [List.find?_cons_of_pos _ hku]
      subst he hs
      rfl
    · have h' : keyMatches e s r = false := by simpa using h
      rw [set_snd_cons_not_match t r store e v s ma h', List.find?_cons_of_neg _ h]
      exact ih

theorem filter_set (t : Int) (store : Store) (e : String) (v : Json) (s : String) (ma : Bool)
    (hd : distinctKeys store) :
    (set_cached_data t store e v s ma).2.filter (keyMatches e s) =
      [⟨e, s, dumpsVal v, t, ma⟩] := by
  induction store with
  | nil =>
    simp [set_cached_data, List.filter, keyMatches]
  | cons r store ih =>
    have hd' : distinctKeys store := hd.of_cons
    by_cases h : keyMatches e s r = true
    · obtain ⟨he, hs⟩ := (keyMatches_iff e s r).mp h
      have hnone : ∀ x ∈ store, keyMatches e s x = false := by
        intro x hx
        have hns : ¬sameKey r x := (List.pairwise_cons.mp hd).1 x hx
        cases hk : keyMatches e s x with
        | false => rfl
        | true =>
          obtain ⟨hxe, hxs⟩ := (keyMatches_iff e s x).mp hk
          exact absurd ⟨by rw [he, hxe], by rw [hs, hxs]⟩ hns
      rw [set_snd_cons_match t r store e v s ma h]
      have hmapid : store.map (fun x => if keyMatches e s x then
          (⟨x.endpoint, x.symbol, dumpsVal v, t, ma⟩ : Row) else x) = store.map id :=
        List.map_congr_left (fun x hx => by simp [hnone x hx])
      rw [hmapid, List.map_id]
      have hku : keyMatches e s ⟨r.endpoint, r.symbol, dumpsVal v, t, ma⟩ = true := by
        simp [keyMatches, he, hs]
      rw [List.filter_cons, if_pos hku]
      rw [List.filter_eq_nil_iff.mpr (fun x hx => by simp [hnone x hx])]
      subst he hs
      rfl
    · have h' : keyMatches e s r = false := by simpa using h
      rw [set_snd_cons_not_match t r store e v s ma h', List.filter_cons,
        if_neg (show ¬(keyMatches e s r = true) by simp [h'])]
      exact ih hd'

theorem get_set_fresh (t off : Int) (store : Store) (e : String) (v : Json) (s : String)
    (ma : Bool) (h : (ma && should_expire_cache t off t) = false) :
    get_cached_data t off (set_cached_data t store e v s ma).2 e s =
      (some v, (set_cached_data t store e v s ma).2) := by
  unfold get_cached_data
  rw [find?_set]
  simp [h, loads_dumps]

/-! ## Invariant preservation and grouping lemmas -/

theorem distinctKeys_nil : distinctKeys [] := List.Pairwise.nil

theorem distinctKeys_filter (store : Store) (p : Row → Bool) (h : distinctKeys store) :
    distinctKeys (store.filter p) :=
  List.Pairwise.sublist (List.filter_sublist store) h

theorem upd_endpoint (e s : String) (d : List Char) (t : Int) (ma : Bool) (x : Row) :
    (if keyMatches e s x then (⟨x.endpoint, x.symbol, d, t, ma⟩ : Row) else x).endpoint =
      x.endpoint := by
  split <;> rfl

theorem upd_symbol (e s : String) (d : List Char) (t : Int) (ma : Bool) (x : Row) :
    (if keyMatches e s x then (⟨x.endpoint, x.symbol, d, t, ma⟩ : Row) else x).symbol =
      x.symbol := by
  split <;> rfl

theorem distinctKeys_set (t : Int) (store : Store) (e : String) (v : Json) (s : String)
    (ma : Bool) (h : distinctKeys store) : distinctKeys (set_cached_data t store e v s ma).2 := by
  unfold set_cached_data
  by_cases ha : store.any (keyMatches e s) = true
  · simp only [ha, if_true]
    unfold distinctKeys at h ⊢
    rw [List.pairwise_map]
    refine h.imp ?_
    intro a b hab hk
    apply hab
    obtain ⟨h1, h2⟩ := hk
    rw [upd_endpoint, upd_endpoint] at h1
    rw [upd_symbol, upd_symbol] at h2
    exact ⟨h1, h2⟩
  · simp only [ha, if_false, Bool.false_eq_true]
    unfold distinctKeys at h ⊢
    rw [List.pairwise_append]
    refine ⟨h, List.pairwise_singleton _ _, ?_⟩
    intro a hax b hbx hk
    rw [List.mem_singleton] at hbx
    subst hbx
    obtain ⟨h1, h2⟩ := hk
    simp only at h1 h2
    have : keyMatches e s a = true := (keyMatches_iff e s a).mpr ⟨h1, h2⟩
    exact ha (List.any_eq_true.mpr ⟨a, hax, this⟩)

theorem distinctKeys_get (t off : Int) (store : Store) (e s : String)
    (h : distinctKeys store) : distinctKeys (get_cached_data t off store e s).2 := by
  unfold get_cached_data
  cases hf : store.find? (keyMatches e s) with
  | none =>
    simp only [hf]
    exact h
  | some r =>
    simp only [hf]
    split
    · exact distinctKeys_filter store _ h
    · exact h

theorem distinctKeys_applyOp (off : Int) (store : Store) (op : CacheOp)
    (h : distinctKeys store) : distinctKeys (applyOp off store op) := by
  cases op with
  | set t e d s ma => exact distinctKeys_set t store e d s ma h
  | get t e s => exact distinctKeys_get t off store e s h
  | clear e s =>
    show distinctKeys (clear_cache store e s).2
    unfold clear_cache
    split_ifs
    · exact distinctKeys_filter store _ h
    · exact distinctKeys_filter store _ h
    · exact distinctKeys_filter store _ h
    · exact distinctKeys_nil
  | clearSymbol s => exact distinctKeys_filter store _ h
  | clearExpired t => exact distinctKeys_filter store _ h

theorem distinctKeys_applyOps (off : Int) (ops : List CacheOp) :
    ∀ store : Store, distinctKeys store → distinctKeys (applyOps off store ops) := by
  induction ops with
  | nil => exact fun store h => h
  | cons op ops ih =>
    intro store h
    exact ih _ (distinctKeys_applyOp off store op h)

theorem get_found_expired (t off : Int) (store : Store) (e s : String) (r : Row)
    (hf : store.find? (keyMatches e s) = some r)
    (hc : (r.market_aware && should_expire_cache t off r.cached_at) = true) :
    get_cached_data t off store e s = (none, store.filter fun x => !keyMatches e s x) := by
  unfold get_cached_data
  simp [hf, hc]

theorem get_found_fresh (t off : Int) (store : Store) (e s : String) (r : Row)
    (hf : store.find? (keyMatches e s) = some r)
    (hc : (r.market_aware && should_expire_cache t off r.cached_at) = false) :
    get_cached_data t off store e s = (loads r.data, store) := by
  unfold get_cached_data
  simp [hf, hc]

theorem mem_uniqueKeysAux (xs : List String) (a : String) :
    ∀ seen, a ∈ uniqueKeysAux seen xs ↔ a ∈ xs ∧ a ∉ seen := by
  induction xs with
  | nil => intro seen; simp [uniqueKeysAux]
  | cons y ys ih =>
    intro seen
    unfold uniqueKeysAux
    by_cases hy : y ∈ seen
    · rw [if_pos hy, ih seen]
      constructor
      · rintro ⟨h1, h2⟩
        exact ⟨List.mem_cons_of_mem _ h1, h2⟩
      · rintro ⟨h1, h2⟩
        rcases List.mem_cons.mp h1 with rfl | h1
        · exact absurd hy h2
        · exact ⟨h1, h2⟩
    · rw [if_neg hy]
      constructor
      · intro h
        rcases List.mem_cons.mp h with rfl | h
        · exact ⟨List.mem_cons_self _ _, hy⟩
        · obtain ⟨h1, h2⟩ := (ih _).mp h
          exact ⟨List.mem_cons_of_mem _ h1,
            fun hs => h2 (List.mem_cons_of_mem _ hs)⟩
      · rintro ⟨h1, h2⟩
        rcases List.mem_cons.mp h1 with rfl | h1
        · exact List.mem_cons_self _ _
        · by_cases hay : a = y
          · subst hay
            exact List.mem_cons_self _ _
          · exact List.mem_cons_of_mem _
              ((ih _).mpr ⟨h1, by simp [List.mem_cons, hay, h2]⟩)

theorem nodup_uniqueKeysAux (xs : List String) : ∀ seen, (uniqueKeysAux seen xs).Nodup := by
  induction xs with
  | nil => intro seen; simp [uniqueKeysAux]
  | cons y ys ih =>
    intro seen
    unfold uniqueKeysAux
    split
    · exact ih _
    · refine List.nodup_cons.mpr ⟨?_, ih _⟩
      intro hy
      obtain ⟨_, h2⟩ := (mem_uniqueKeysAux ys y _).mp hy
      exact h2 (List.mem_cons_self _ _)

theorem mem_uniqueKeys (xs : List String) (a : String) : a ∈ uniqueKeys xs ↔ a ∈ xs := by
  unfold uniqueKeys
  rw [mem_uniqueKeysAux]
  simp

theorem nodup_uniqueKeys (xs : List String) : (uniqueKeys xs).Nodup :=
  nodup_uniqueKeysAux xs []

theorem sum_map_ite_eq_one (es : List String) (a : String) (hnd : es.Nodup) (ha : a ∈ es) :
    (es.map fun e => if a = e then 1 else 0).sum = 1 := by
  induction es with
  | nil => simp at ha
  | cons y ys ih =>
    rw [List.map_cons, List.sum_cons]
    rcases List.mem_cons.mp ha with rfl | ha2
    · rw [if_pos rfl]
      have hnot : a ∉ ys := (List.nodup_cons.mp hnd).1
      have hz : (ys.map fun e => if a = e then 1 else 0).sum = 0 := by
        rw [List.sum_eq_zero]
        intro x hx
        obtain ⟨e, he, rfl⟩ := List.mem_map.mp hx
        rw [if_neg]
        rintro rfl
        exact hnot he
      rw [hz]
    · have hne : ¬(a = y) := by
        rintro rfl
        exact (List.nodup_cons.mp hnd).1 ha2
      rw [if_neg hne, ih (List.nodup_cons.mp hnd).2 ha2]

theorem sum_map_add_nat {α : Type} (l : List α) (f g : α → Nat) :
    (l.map fun x => f x + g x).sum = (l.map f).sum + (l.map g).sum := by
  induction l with
  | nil => simp
  | cons x l ih =>
    simp only [List.map_cons, List.sum_cons, ih]
    omega

theorem count_partition (rows : List Row) (es : List String) (hnd : es.Nodup)
    (hcov : ∀ r ∈ rows, r.endpoint ∈ es) :
    (es.map fun e => (rows.filter fun r => r.endpoint == e).length).sum = rows.length := by
  induction rows with
  | nil => simp
  | cons r rows ih =>
    have hr : r.endpoint ∈ es := hcov r (List.mem_cons_self _ _)
    have hcov' : ∀ x ∈ rows, x.endpoint ∈ es := fun x hx => hcov x (List.mem_cons_of_mem _ hx)
    have hmap : (es.map fun e => ((r :: rows).filter fun x => x.endpoint == e).length) =
        es.map fun e => (if r.endpoint = e then 1 else 0) +
          (rows.filter fun x => x.endpoint == e).length := by
      apply List.map_congr_left
      intro e _
      rw [List.filter_cons]
      by_cases hre : r.endpoint = e
      · rw [if_pos (by simp [hre]), if_pos hre]
        simp only [List.length_cons]
        omega
      · rw [if_neg (by simp [hre]), if_neg hre]
        simp
    rw [hmap, sum_map_add_nat, sum_map_ite_eq_one es r.endpoint hnd hr, ih hcov']
    simp only [List.length_cons]
    omega

theorem find?_filter_of_imp {α : Type} (l : List α) (p q : α → Bool)
    (h : ∀ x, p x = true → q x = true) : (l.filter q).find? p = l.find? p := by
  induction l with
  | nil => rfl
  | cons a l ih =>
    by_cases hq : q a = true
    · rw [List.filter_cons, if_pos hq]
      by_cases hp : p a = true
      · rw [List.find?_cons_of_pos _ hp, List.find?_cons_of_pos _ hp]
      · rw [List.find?_cons_of_neg _ hp, List.find?_cons_of_neg _ hp, ih]
    · rw [List.filter_cons, if_neg hq]
      by_cases hp : p a = true
      · exact absurd (h a hp) hq
      · rw [List.find?_cons_of_neg _ hp, ih]

theorem string_append_ne_empty (pre msg : String) (h : pre.length ≠ 0) : pre ++ msg ≠ "" := by
  intro hc
  have h2 := congrArg String.length hc
  rw [String.length_append] at h2
  have h0 : ("" : String).length = 0 := rfl
  omega

/-! ## The claims -/

/-- C1: for every input to the trading-strategy classifier where the price
series is absent or has fewer than 20 usable bars — and likewise for any
fetch or parse failure — the result has `strategy_type = WAIT`,
`confidence = LOW`, a non-empty `error`, and empty `exit_targets`; the
classifier is total (never raises), for every scoring rubric `full`. -/
theorem claim_C1_wait_fallback (full : List PriceBar → AnalystTargets → TradingStrategy)
    (fetched : Except String (Option (List PriceBar))) (targets : AnalystTargets)
    (hbad : (∃ msg, fetched = .error msg) ∨ fetched = .ok none ∨
      (∃ bars, fetched = .ok (some bars) ∧ bars.length < 20)) :
    (get_trading_strategy full fetched targets).strategy_type = .WAIT ∧
    (get_trading_strategy full fetched targets).confidence = .LOW ∧
    (∃ reason, (get_trading_strategy full fetched targets).error = some reason ∧ reason ≠ "") ∧
    (get_trading_strategy full fetched targets).exit_targets = [] := by
  rcases hbad with ⟨msg, rfl⟩ | rfl | ⟨bars, rfl, hlen⟩
  · exact ⟨rfl, rfl, ⟨_, rfl, string_append_ne_empty "Unable to fetch price data: " msg
      (by decide)⟩, rfl⟩
  · exact ⟨rfl, rfl, ⟨_, rfl, by decide⟩, rfl⟩
  · have hred : get_trading_strategy full (.ok (some bars)) targets =
        waitFallback "Insufficient price history: fewer than 20 usable bars" := by
      show (if bars.length < 20 then
          waitFallback "Insufficient price history: fewer than 20 usable bars"
        else full bars targets) = _
      rw [if_pos hlen]
    rw [hred]
    exact ⟨rfl, rfl, ⟨_, rfl, by decide⟩, rfl⟩

theorem claim_C1_witness :
    (get_trading_strategy (fun _ _ => waitFallback "") (.ok (some []))
      ⟨none, none, none, none⟩).strategy_type = .WAIT ∧
    (get_trading_strategy (fun _ _ => waitFallback "") (.ok (some []))
      ⟨none, none, none, none⟩).confidence = .LOW ∧
    (∃ reason, (get_trading_strategy (fun _ _ => waitFallback "") (.ok (some []))
      ⟨none, none, none, none⟩).error = some reason ∧ reason ≠ "") ∧
    (get_trading_strategy (fun _ _ => waitFallback "") (.ok (some []))
      ⟨none, none, none, none⟩).exit_targets = [] :=
  claim_C1_wait_fallback (fun _ _ => waitFallback "") (.ok (some [])) ⟨none, none, none, none⟩
    (Or.inr (Or.inr ⟨[], rfl, by decide⟩))

/-- C5 counterexample: in a UTC+2 zone at local Monday 1970-01-05 12:00
(`t = 381600000000` μs, market open locally), a market-aware `set` followed
by a `get` at the very same instant — true age zero, so no expiration
boundary in the claim's sense is crossed — returns `none`, not the stored
value: the code computes the fresh row's age as local `datetime.now()` minus
the UTC-written `cached_at`, i.e. the +2 h offset itself, judges it over the
1-hour market-open bound, deletes the row and reports a miss. -/
theorem claim_C5_counterexample :
    (set_cached_data 381600000000 [] "a" (Json.num 7) "A" true).1 = true ∧
    (get_cached_data 381600000000 7200000000
      (set_cached_data 381600000000 [] "a" (Json.num 7) "A" true).2 "a" "A").1 = none := by
  constructor
  · unfold set_cached_data
    split <;> rfl
  · have hf := find?_set 381600000000 [] "a" (Json.num 7) "A" true
    have hexp : should_expire_cache 381600000000 7200000000 381600000000 = true := by decide
    have hget := get_found_expired 381600000000 7200000000 _ "a" "A" _ hf (by simp [hexp])
    rw [hget]

/-- C5 as amended: `set(e, s, v)` returns `True` for every JSON-serializable
payload; and an immediately following `get(e, s)` returns a value deep-equal
to `v` — for every payload in the JSON universe, nested structures included
— unless the row was written market-aware and the code's computed age of the
just-written row already exceeds an expiration bound.  That computed age is
the local-UTC offset itself (local `datetime.now()` minus the UTC-written
`cached_at` of the same instant), so the proviso asks that the offset not
exceed 24 hours nor, while the market is open locally, 1 hour; in
particular the round-trip always holds when `market_aware` is false or
local time equals UTC. -/
theorem claim_C5_amended (t off : Int) (store : Store) (e : String) (v : Json)
    (s : String) (ma : Bool)
    (h : ma = true → ¬(off > 24 * usPerHour ∨
      (pyWeekday t off < 5 ∧ marketOpenTod ≤ localTimeOfDay t off ∧
        localTimeOfDay t off ≤ marketCloseTod ∧ off > usPerHour))) :
    (set_cached_data t store e v s ma).1 = true ∧
    get_cached_data t off (set_cached_data t store e v s ma).2 e s =
      (some v, (set_cached_data t store e v s ma).2) := by
  refine ⟨?_, ?_⟩
  · unfold set_cached_data
    split <;> rfl
  · apply get_set_fresh
    cases ma with
    | false => rfl
    | true =>
      have hse : should_expire_cache t off t = false := by
        cases hb : should_expire_cache t off t
        · rfl
        · exact absurd ((should_expire_write_iff t off).mp hb) (h rfl)
      simp [hse]

theorem claim_C5_witness :
    (set_cached_data 0 [] "a" (Json.num 7) "A" true).1 = true ∧
    get_cached_data 0 0 (set_cached_data 0 [] "a" (Json.num 7) "A" true).2 "a" "A" =
      (some (Json.num 7), (set_cached_data 0 [] "a" (Json.num 7) "A" true).2) :=
  claim_C5_amended 0 0 [] "a" (Json.num 7) "A" true (fun _ => by decide)

/-- C6 counterexample: two sequential market-aware `set` calls with the same
key do leave exactly one row carrying the second call's payload, timestamp
and flag — but the following `get` does NOT return the second value.  In a
UTC+2 zone at local Monday 1970-01-05 12:00 (`t = 381600000000` μs, market
open locally), the code computes the fresh row's age as local
`datetime.now()` minus the UTC-written `cached_at` — the +2 h offset —
judges it expired, deletes the row and returns `none`, refuting the claim's
final conjunct. -/
theorem claim_C6_counterexample :
    (set_cached_data 381600000000 (set_cached_data 381600000000 [] "a" (Json.num 1) "A" true).2
        "a" (Json.num 2) "A" true).2.filter (keyMatches "a" "A") =
      [⟨"a", "A", dumpsVal (Json.num 2), 381600000000, true⟩] ∧
    (get_cached_data 381600000000 7200000000
        (set_cached_data 381600000000
          (set_cached_data 381600000000 [] "a" (Json.num 1) "A" true).2
          "a" (Json.num 2) "A" true).2 "a" "A").1 = none := by
  have hd1 := distinctKeys_set 381600000000 [] "a" (Json.num 1) "A" true distinctKeys_nil
  refine ⟨filter_set 381600000000 _ "a" (Json.num 2) "A" true hd1, ?_⟩
  have hf := find?_set 381600000000
    (set_cached_data 381600000000 [] "a" (Json.num 1) "A" true).2 "a" (Json.num 2) "A" true
  have hexp : should_expire_cache 381600000000 7200000000 381600000000 = true := by decide
  have hget := get_found_expired 381600000000 7200000000 _ "a" "A" _ hf (by simp [hexp])
  rw [hget]

/-- C6 as amended: starting from the empty table, any sequence of cache
operations preserves the at-most-one-row-per-(endpoint, symbol) invariant;
two sequential `set` calls with the same key leave exactly one row for that
key, carrying the second call's payload, timestamp and flag; and a following
`get` returns the second value unless the second write was market-aware and
the code's computed age of a fresh row — the local-UTC offset, since
`cached_at` is stored in UTC but compared against local time — already
exceeds an expiration bound (over 24 hours, or over 1 hour while the market
is open locally); in particular always when `market_aware` is false or
local time equals UTC. -/
theorem claim_C6_amended :
    (∀ (off : Int) (ops : List CacheOp), distinctKeys (applyOps off [] ops)) ∧
    (∀ (t1 t2 off : Int) (store : Store) (e s : String) (v1 v2 : Json) (ma1 ma2 : Bool),
      distinctKeys store →
      (set_cached_data t2 (set_cached_data t1 store e v1 s ma1).2 e v2 s ma2).2.filter
          (keyMatches e s) = [⟨e, s, dumpsVal v2, t2, ma2⟩] ∧
      ((ma2 = true → ¬(off > 24 * usPerHour ∨
          (pyWeekday t2 off < 5 ∧ marketOpenTod ≤ localTimeOfDay t2 off ∧
            localTimeOfDay t2 off ≤ marketCloseTod ∧ off > usPerHour))) →
        (get_cached_data t2 off
            (set_cached_data t2 (set_cached_data t1 store e v1 s ma1).2 e v2 s ma2).2 e s).1 =
          some v2)) := by
  constructor
  · intro off ops
    exact distinctKeys_applyOps off ops [] distinctKeys_nil
  · intro t1 t2 off store e s v1 v2 ma1 ma2 hd
    have hd1 := distinctKeys_set t1 store e v1 s ma1 hd
    refine ⟨filter_set t2 _ e v2 s ma2 hd1, ?_⟩
    intro h
    have hcond : (ma2 && should_expire_cache t2 off t2) = false := by
      cases ma2 with
      | false => rfl
      | true =>
        have hse : should_expire_cache t2 off t2 = false := by
          cases hb : should_expire_cache t2 off t2
          · rfl
          · exact absurd ((should_expire_write_iff t2 off).mp hb) (h rfl)
        simp [hse]
    rw [get_set_fresh t2 off _ e v2 s ma2 hcond]

theorem claim_C6_witness :
    (get_cached_data 5 0 (set_cached_data 5 (set_cached_data 3 [] "a" (Json.num 1) "A" true).2
      "a" (Json.num 2) "A" false).2 "a" "A").1 = some (Json.num 2) :=
  (claim_C6_amended.2 3 5 0 [] "a" "A" (Json.num 1) (Json.num 2) true false
    distinctKeys_nil).2 (fun hma => Bool.noConfusion hma)

/-- C9: the technical-indicator computation returns the empty result for an
absent price series, for any series with fewer than 30 bars, and for any
series missing the required `Close`/`Volume` columns — so no SMA, RSI, MACD
or Bollinger entry is produced; the function is total (never raises). -/
theorem claim_C9_insufficient_bars (df : Option PriceFrame)
    (hbad : df = none ∨ ∃ f, df = some f ∧
      (f.nrows < 30 ∨ "Close" ∉ f.columns ∨ "Volume" ∉ f.columns)) :
    calculate_technical_indicators df = [] := by
  rcases hbad with rfl | ⟨f, rfl, hcase⟩
  · rfl
  · show (if f.nrows < 30 then [] else
      if "Close" ∉ f.columns ∨ "Volume" ∉ f.columns then [] else
        smaBlock f.close ++ rsiBlock f.close ++ macdBlock f.close ++ bbBlock f.close ++
          volumeBlock f.volume ++ trendBlock f.close) = []
    by_cases h30 : f.nrows < 30
    · rw [if_pos h30]
    · rw [if_neg h30]
      rcases hcase with h | h | h
      · exact absurd h h30
      · rw [if_pos (Or.inl h)]
      · rw [if_pos (Or.inr h)]

theorem claim_C9_witness :
    calculate_technical_indicators (some ⟨10, ["Close", "Volume"], [], []⟩) = [] :=
  claim_C9_insufficient_bars (some ⟨10, ["Close", "Volume"], [], []⟩)
    (Or.inr ⟨⟨10, ["Close", "Volume"], [], []⟩, rfl, Or.inl (by decide)⟩)

/-- C2 counterexample: at 16:00 UTC Monday 1970-01-05 in a UTC−4 (Eastern)
zone — local Monday 12:00, inside the market window — a `market_aware = true`
row cached 2 hours earlier has true age over 1 hour and under 24 hours, so
the claim says the `get` deletes it and returns absent.  The code instead
computes the age as local `datetime.now()` minus the UTC-written `cached_at`
— here −2 hours — and keeps the row: the payload is returned and the table
is unchanged, refuting the claimed iff. -/
theorem claim_C2_counterexample :
    (⟨"a", "A", ['1'], 396000000000, true⟩ : Row).market_aware = true ∧
    (403200000000 : Int) - 396000000000 > usPerHour ∧
    (403200000000 : Int) - 396000000000 ≤ 24 * usPerHour ∧
    pyWeekday 403200000000 (-(4 * usPerHour)) < 5 ∧
    marketOpenTod ≤ localTimeOfDay 403200000000 (-(4 * usPerHour)) ∧
    localTimeOfDay 403200000000 (-(4 * usPerHour)) ≤ marketCloseTod ∧
    get_cached_data 403200000000 (-(4 * usPerHour)) [⟨"a", "A", ['1'], 396000000000, true⟩]
      "a" "A" = (some (Json.num 1), [⟨"a", "A", ['1'], 396000000000, true⟩]) :=
  ⟨rfl, by decide, by decide, by decide, by decide, by decide, rfl⟩

/-- C2 as amended: a `get` on a `market_aware = true` row at instant `t`
expires the row — deletes it and returns absent — if and only if the code's
computed age exceeds 24 hours, or the market is open at `t` (weekday
Monday–Friday and local time-of-day within the 09:30–16:00 boundary,
inclusive) and the computed age exceeds 1 hour; otherwise the row's stored
payload is parsed and returned and the table is unchanged.  The computed age
is the local wall-clock reading minus the stored `cached_at` — the true age
plus the local-UTC offset, because `cached_at` is written by SQLite
`CURRENT_TIMESTAMP` in UTC while `datetime.now()` reads the local clock.
(With local time equal to UTC the computed age is the true age and the rule
reads as originally claimed.) -/
theorem claim_C2_amended (t off : Int) (store : Store) (e s : String) (r : Row)
    (hf : store.find? (keyMatches e s) = some r) (hma : r.market_aware = true) :
    (get_cached_data t off store e s = (none, store.filter fun x => !keyMatches e s x) ↔
      (t + off - r.cached_at > 24 * usPerHour ∨
        (pyWeekday t off < 5 ∧ marketOpenTod ≤ localTimeOfDay t off ∧
          localTimeOfDay t off ≤ marketCloseTod ∧ t + off - r.cached_at > usPerHour))) ∧
    (¬(t + off - r.cached_at > 24 * usPerHour ∨
        (pyWeekday t off < 5 ∧ marketOpenTod ≤ localTimeOfDay t off ∧
          localTimeOfDay t off ≤ marketCloseTod ∧ t + off - r.cached_at > usPerHour)) →
      get_cached_data t off store e s = (loads r.data, store)) := by
  have hmem : r ∈ store := List.mem_of_find?_eq_some hf
  have hkey : keyMatches e s r = true := List.find?_some hf
  have hfresh : ¬(t + off - r.cached_at > 24 * usPerHour ∨
      (pyWeekday t off < 5 ∧ marketOpenTod ≤ localTimeOfDay t off ∧
        localTimeOfDay t off ≤ marketCloseTod ∧ t + off - r.cached_at > usPerHour)) →
      get_cached_data t off store e s = (loads r.data, store) := by
    intro hcond
    have hse : should_expire_cache t off r.cached_at = false := by
      cases hb : should_expire_cache t off r.cached_at
      · rfl
      · exact absurd ((should_expire_iff t off r.cached_at).mp hb) hcond
    exact get_found_fresh t off store e s r hf (by simp [hse])
  refine ⟨⟨?_, ?_⟩, hfresh⟩
  · intro hdel
    by_contra hcond
    rw [hfresh hcond] at hdel
    have hlen : (store.filter fun x => !keyMatches e s x).length < store.length :=
      length_filter_lt_of_mem store _ r hmem (by simp [hkey])
    have hsnd : store = store.filter fun x => !keyMatches e s x := congrArg Prod.snd hdel
    rw [← hsnd] at hlen
    exact absurd hlen (lt_irrefl _)
  · intro hcond
    have hse : should_expire_cache t off r.cached_at = true :=
      (should_expire_iff t off r.cached_at).mpr hcond
    exact get_found_expired t off store e s r hf (by simp [hma, hse])

theorem claim_C2_witness :
    get_cached_data (25 * usPerHour) 0 [⟨"price-history", "AAPL", ['1'], 0, true⟩]
      "price-history" "AAPL" = (none, []) := by
  have h := (claim_C2_amended (25 * usPerHour) 0
    [⟨"price-history", "AAPL", ['1'], 0, true⟩] "price-history" "AAPL"
    ⟨"price-history", "AAPL", ['1'], 0, true⟩ (by rfl) rfl).1.mpr (Or.inl (by decide))
  simpa using h

/-- C3 counterexample: a `market_aware = false` row aged 25 hours — beyond
the claim's unconditional 24-hour bound — is NOT expired by `get`: the
payload is returned and the row is retained, so the claim that such a get
"returns absent" is false at this input. -/
theorem claim_C3_counterexample :
    (25 * usPerHour : Int) - 0 > 24 * usPerHour ∧
    (⟨"a", "A", ['1'], 0, false⟩ : Row).market_aware = false ∧
    get_cached_data (25 * usPerHour) 0 [⟨"a", "A", ['1'], 0, false⟩] "a" "A" =
      (some (Json.num 1), [⟨"a", "A", ['1'], 0, false⟩]) := by
  refine ⟨by decide, rfl, ?_⟩
  rfl

/-- C3 as amended: for a `market_aware = false` row, neither the 1-hour
market rule nor the 24-hour rule applies at read time — `get` parses and
returns the stored payload regardless of the row's age and of the market
state, and the table is unchanged (such rows are removed only by the
explicit clear operations). -/
theorem claim_C3_amended (t off : Int) (store : Store) (e s : String) (r : Row)
    (hf : store.find? (keyMatches e s) = some r) (hma : r.market_aware = false) :
    get_cached_data t off store e s = (loads r.data, store) :=
  get_found_fresh t off store e s r hf (by simp [hma])

theorem claim_C3_witness :
    get_cached_data (26 * usPerHour) 0 [⟨"b", "B", ['2'], 0, false⟩] "b" "B" =
      (some (Json.num 2), [⟨"b", "B", ['2'], 0, false⟩]) := by
  have h := claim_C3_amended (26 * usPerHour) 0 [⟨"b", "B", ['2'], 0, false⟩] "b" "B"
    ⟨"b", "B", ['2'], 0, false⟩ (by rfl) rfl
  rw [h]
  rfl

/-- C8: `clear` deletes exactly the rows matching the supplied filters —
both endpoint and symbol, endpoint only, symbol only, or neither meaning
delete-all (for non-empty supplied values) — and returns the number of rows
removed; and after `clear(endpoint = X)`, a `get` under any other endpoint
returns exactly what it returned before the clear. -/
theorem claim_C8_filtered_clear (store : Store) (ep sy : Option String)
    (he : ∀ x, ep = some x → x ≠ "") (hs : ∀ x, sy = some x → x ≠ "") :
    clear_cache store ep sy =
      ((store.filter (matchesFilters ep sy)).length,
        store.filter fun r => !matchesFilters ep sy r) ∧
    (∀ (t off : Int) (X e2 s2 : String), ep = some X → sy = none → e2 ≠ X →
      (get_cached_data t off (clear_cache store ep sy).2 e2 s2).1 =
        (get_cached_data t off store e2 s2).1) := by
  constructor
  · cases ep with
    | none =>
      cases sy with
      | none =>
        unfold clear_cache
        rw [if_neg (by decide), if_neg (by decide), if_neg (by decide)]
        have h5 : store.filter (matchesFilters none none) = store.filter fun _ => true :=
          List.filter_congr (fun r _ => rfl)
        have h6 : (store.filter fun r => !matchesFilters none none r) =
            store.filter fun _ => false := List.filter_congr (fun r _ => rfl)
        rw [h5, h6, List.filter_true, List.filter_false]
      | some s =>
        have h2 : truthy (some s) = true := (truthy_some s).mpr (hs s rfl)
        unfold clear_cache
        rw [if_neg (by simp [truthy]), if_neg (by decide), if_pos h2]
        have h3 : (store.filter fun r : Row => r.symbol == s) =
            store.filter (matchesFilters none (some s)) :=
          List.filter_congr (fun r _ => by simp [matchesFilters])
        have h4 : (store.filter fun r : Row => !(r.symbol == s)) =
            store.filter fun r => !matchesFilters none (some s) r :=
          List.filter_congr (fun r _ => by simp [matchesFilters])
        show ((store.filter fun r : Row => r.symbol == s).length,
          store.filter fun r : Row => !(r.symbol == s)) = _
        rw [h3, h4]
    | some e =>
      have h1 : truthy (some e) = true := (truthy_some e).mpr (he e rfl)
      cases sy with
      | none =>
        unfold clear_cache
        rw [if_neg (by simp [truthy]), if_pos h1]
        have h3 : (store.filter fun r : Row => r.endpoint == e) =
            store.filter (matchesFilters (some e) none) :=
          List.filter_congr (fun r _ => by simp [matchesFilters])
        have h4 : (store.filter fun r : Row => !(r.endpoint == e)) =
            store.filter fun r => !matchesFilters (some e) none r :=
          List.filter_congr (fun r _ => by simp [matchesFilters])
        show ((store.filter fun r : Row => r.endpoint == e).length,
          store.filter fun r : Row => !(r.endpoint == e)) = _
        rw [h3, h4]
      | some s =>
        have h2 : truthy (some s) = true := (truthy_some s).mpr (hs s rfl)
        unfold clear_cache
        rw [if_pos (by simp [h1, h2])]
        rfl
  · rintro t off X e2 s2 rfl rfl hne
    have h1 : truthy (some X) = true := (truthy_some X).mpr (he X rfl)
    have hsnd : (clear_cache store (some X) none).2 =
        store.filter fun r : Row => !(r.endpoint == X) := by
      unfold clear_cache
      rw [if_neg (by simp [truthy]), if_pos h1]
      rfl
    rw [hsnd]
    have hfind : (store.filter fun r : Row => !(r.endpoint == X)).find? (keyMatches e2 s2) =
        store.find? (keyMatches e2 s2) := by
      apply find?_filter_of_imp
      intro x hx
      obtain ⟨hxe, _⟩ := (keyMatches_iff e2 s2 x).mp hx
      simp [hxe, hne]
    cases hf : store.find? (keyMatches e2 s2) with
    | none =>
      unfold get_cached_data
      rw [hfind, hf]
    | some r =>
      unfold get_cached_data
      rw [hfind, hf]
      by_cases hcond : (r.market_aware && should_expire_cache t off r.cached_at) = true
      · simp [hcond]
      · simp [hcond]

theorem claim_C8_witness :
    (get_cached_data 7 0
      (clear_cache [⟨"a", "A", ['1'], 0, true⟩, ⟨"b", "A", ['2'], 0, true⟩]
        (some "a") none).2 "b" "A").1 =
      (get_cached_data 7 0 [⟨"a", "A", ['1'], 0, true⟩, ⟨"b", "A", ['2'], 0, true⟩] "b" "A").1 :=
  (claim_C8_filtered_clear [⟨"a", "A", ['1'], 0, true⟩, ⟨"b", "A", ['2'], 0, true⟩]
    (some "a") none (fun x hx => by cases hx; decide) (fun x hx => by cases hx)).2
    7 0 "a" "b" "A" rfl rfl (by decide)

/-- C10: `clear` decides filter presence by Python string truthiness, so an
empty-string filter behaves like an absent one: `clear(endpoint = "",
symbol = s)` (for non-empty `s`) deletes exactly the rows with symbol `s`
across every endpoint, and `clear(endpoint = "", symbol = "")` deletes every
row in the store. -/
theorem claim_C10_empty_filter_truthiness (store : Store) :
    (∀ s : String, s ≠ "" →
      clear_cache store (some "") (some s) =
        ((store.filter fun r : Row => r.symbol == s).length,
          store.filter fun r : Row => !(r.symbol == s))) ∧
    clear_cache store (some "") (some "") = (store.length, []) := by
  constructor
  · intro s hsne
    have h2 : truthy (some s) = true := (truthy_some s).mpr hsne
    unfold clear_cache
    rw [if_neg (by simp [show truthy (some "") = false from rfl]), if_neg (by decide),
      if_pos h2]
    rfl
  · unfold clear_cache
    rw [if_neg (by decide), if_neg (by decide), if_neg (by decide)]

theorem claim_C10_witness :
    clear_cache [⟨"a", "A", ['1'], 0, true⟩, ⟨"b", "A", ['2'], 0, true⟩] (some "") (some "A") =
      (2, []) := by
  have h := (claim_C10_empty_filter_truthiness
    [⟨"a", "A", ['1'], 0, true⟩, ⟨"b", "A", ['2'], 0, true⟩]).1 "A" (by decide)
  simpa using h

/-- C4 counterexample: at the instant 403200000000 μs (Monday 1970-01-05,
12:00 local with a UTC−4 offset, i.e. 16:00 UTC), a `market_aware = true`
row whose stored `cached_at` lies 6 hours back is classified expired by the
read-time rule (market open, and the computed age — local now minus the
UTC-written timestamp — is 2 h > 1 h), yet `clear_expired()` deletes
nothing — its SQL predicate (age under 24 h, same UTC date) keeps the row.
Moreover a `market_aware = false` row aged 25 hours is never deleted by
`clear_expired()`, though the claim says the 24-hour rule removes it.  So
the bulk sweep and the read-time evaluation are not equivalent policies. -/
theorem claim_C4_counterexample :
    (⟨"a", "A", ['1'], 381600000000, true⟩ : Row).market_aware = true ∧
    should_expire_cache 403200000000 (-(4 * usPerHour)) 381600000000 = true ∧
    clear_expired_cache 403200000000 [⟨"a", "A", ['1'], 381600000000, true⟩] =
      (0, [⟨"a", "A", ['1'], 381600000000, true⟩]) ∧
    (⟨"b", "B", ['2'], 0, false⟩ : Row).market_aware = false ∧
    (25 * usPerHour : Int) - 0 > 24 * usPerHour ∧
    clear_expired_cache (25 * usPerHour) [⟨"b", "B", ['2'], 0, false⟩] =
      (0, [⟨"b", "B", ['2'], 0, false⟩]) :=
  ⟨rfl, by decide, by decide, rfl, by decide, by decide⟩

/-- C4 as amended: `clear_expired()` deletes exactly the
`market_aware = true` rows satisfying its SQL sweep predicate — age over 24
hours, or the row's UTC date differs from the current UTC date while the
current UTC time-of-day plus 4 hours is before 09:30 — and returns the
number deleted; `market_aware = false` rows are never deleted, even beyond
24 hours.  (This sweep predicate is not the read-time rule; see the
counterexample.) -/
theorem claim_C4_amended (t : Int) (store : Store) :
    (clear_expired_cache t store).1 = store.countP (sweep_expire t) ∧
    (∀ r : Row, r ∈ (clear_expired_cache t store).2 ↔
      r ∈ store ∧ ¬(r.market_aware = true ∧
        (t - r.cached_at > 24 * usPerHour ∨
          (utcDayIndex t ≠ utcDayIndex r.cached_at ∧ utcPlus4Minutes t < 570)))) ∧
    (∀ r ∈ store, r.market_aware = false → r ∈ (clear_expired_cache t store).2) := by
  have hiff : ∀ r : Row, sweep_expire t r = true ↔
      (r.market_aware = true ∧ (t - r.cached_at > 24 * usPerHour ∨
        (utcDayIndex t ≠ utcDayIndex r.cached_at ∧ utcPlus4Minutes t < 570))) := by
    intro r
    simp [sweep_expire]
  refine ⟨?_, ?_, ?_⟩
  · show (store.filter (sweep_expire t)).length = _
    exact (List.countP_eq_length_filter _ _).symm
  · intro r
    show r ∈ store.filter (fun x => !sweep_expire t x) ↔ _
    rw [List.mem_filter]
    constructor
    · rintro ⟨h1, h2⟩
      refine ⟨h1, fun hcond => ?_⟩
      rw [(hiff r).mpr hcond] at h2
      simp at h2
    · rintro ⟨h1, h2⟩
      refine ⟨h1, ?_⟩
      cases hb : sweep_expire t r with
      | false => rfl
      | true => exact absurd ((hiff r).mp hb) h2
  · intro r hr hma
    show r ∈ store.filter (fun x => !sweep_expire t x)
    exact List.mem_filter.mpr ⟨hr, by simp [sweep_expire, hma]⟩

theorem claim_C4_witness :
    (⟨"b", "B", ['2'], 0, false⟩ : Row) ∈
      (clear_expired_cache (25 * usPerHour) [⟨"b", "B", ['2'], 0, false⟩]).2 :=
  (claim_C4_amended (25 * usPerHour) [⟨"b", "B", ['2'], 0, false⟩]).2.2
    ⟨"b", "B", ['2'], 0, false⟩ (by simp) rfl

/-- C7 counterexample: at the same market-open instant as the C4
counterexample, a `market_aware = true` row with a computed read-time age of
2 hours (stored `cached_at` 6 hours back under the UTC−4 offset) is already
expired under the read-time rule, yet `stats()` reports it valid
(`valid_entries = 1`) and counts it in `by_endpoint` — while the
spec-following computation (count only rows passing the read-time rule,
descending by count) yields no valid rows and an empty `by_endpoint`.  The
claim that `valid` counts rows passing the expiration rule and that
`by_endpoint` counts only currently-valid rows is false at this input. -/
theorem claim_C7_counterexample :
    get_cache_stats 403200000000 [⟨"a", "A", ['1'], 381600000000, true⟩] =
      ⟨1, 1, 0, [("a", 1)]⟩ ∧
    (⟨"a", "A", ['1'], 381600000000, true⟩ : Row).market_aware = true ∧
    should_expire_cache 403200000000 (-(4 * usPerHour)) 381600000000 = true ∧
    by_endpoint_valid_spec 403200000000 (-(4 * usPerHour))
      [⟨"a", "A", ['1'], 381600000000, true⟩] = [] :=
  ⟨by decide, rfl, by decide, by decide⟩

/-- C7 as amended: `stats()` returns `total` = the number of rows;
`expired` = the number of rows matching the bulk-sweep SQL predicate
`sweep_expire` (not the read-time rule); `valid = total - expired` (so
`valid + expired = total`); and `by_endpoint` groups ALL rows — valid and
expired alike — by endpoint, each group carrying its full row count (the
groups partition the table, so the counts sum to `total`); no
descending-by-count ordering is applied. -/
theorem claim_C7_amended (t : Int) (store : Store) :
    (get_cache_stats t store).total_entries = store.length ∧
    (get_cache_stats t store).expired_entries = store.countP (sweep_expire t) ∧
    (get_cache_stats t store).valid_entries + (get_cache_stats t store).expired_entries =
      (get_cache_stats t store).total_entries ∧
    (get_cache_stats t store).by_endpoint.map Prod.fst =
      uniqueKeys (store.map (·.endpoint)) ∧
    (∀ p ∈ (get_cache_stats t store).by_endpoint,
      p.2 = store.countP fun r => r.endpoint == p.1) ∧
    ((get_cache_stats t store).by_endpoint.map Prod.snd).sum = store.length := by
  have hbe : (get_cache_stats t store).by_endpoint =
      (uniqueKeys (store.map (·.endpoint))).map fun e =>
        (e, (store.filter fun r => r.endpoint == e).length) := rfl
  refine ⟨rfl, ?_, ?_, ?_, ?_, ?_⟩
  · show (store.filter (sweep_expire t)).length = store.countP (sweep_expire t)
    exact (List.countP_eq_length_filter _ _).symm
  · show store.length - (store.filter (sweep_expire t)).length +
      (store.filter (sweep_expire t)).length = store.length
    have := List.length_filter_le (sweep_expire t) store
    omega
  · rw [hbe, List.map_map]
    have hc : (Prod.fst ∘ fun e : String =>
        (e, (store.filter fun r => r.endpoint == e).length)) = id := rfl
    rw [hc, List.map_id]
  · intro p hp
    rw [hbe] at hp
    obtain ⟨e, _, rfl⟩ := List.mem_map.mp hp
    exact (List.countP_eq_length_filter _ _).symm
  · rw [hbe, List.map_map]
    have hc : (Prod.snd ∘ fun e : String =>
        (e, (store.filter fun r => r.endpoint == e).length)) =
        fun e => (store.filter fun r => r.endpoint == e).length := rfl
    rw [hc]
    exact count_partition store _ (nodup_uniqueKeys _)
      (fun r hr => (mem_uniqueKeys _ _).mpr (List.mem_map.mpr ⟨r, hr, rfl⟩))

theorem claim_C7_witness :
    ((get_cache_stats 0 [⟨"a", "A", ['1'], 0, true⟩]).by_endpoint.map Prod.snd).sum = 1 := by
  have h := (claim_C7_amended 0 [⟨"a", "A", ['1'], 0, true⟩]).2.2.2.2.2
  simpa using h

end Oobir
